import Mathlib

/-!
Verification of the LeadCode multi-ecosystem technology detection engine.

This file gives a shallow embedding of the detection core:
JavaScript version normalization and stack classification
(src/analyzers/detection.ts), ecosystem sniffing and adapter resolution
(src/analyzers/ecosystem.ts), the go.mod parser (GoAdapter), the Python
version normalizer (src/analyzers/ecosystems/python.ts) and the composer
require splitting of the PhpAdapter, together with theorems settling the
specification claims about them.

Modelling conventions:
  * TS `Record<string, string>` dependency maps become association lists
    `List (String × String)`; `name in obj` becomes `(l.lookup name).isSome`
    and JS `Set` membership becomes list membership.
  * JS regexes are implemented as explicit matching functions on `List Char`
    with the same semantics (leftmost match, greedy quantifiers; all the
    regexes used have character classes disjoint from their separators, so
    no backtracking beyond what is coded is possible).
  * `async` filesystem probing is abstracted by the list of directory
    entries present at the project root.
-/

namespace LeadCode

/-! ## Character classes and basic string utilities -/

/-- JS whitespace class (`\s`, and the class used by `String.prototype.trim`),
restricted to the ASCII range that can occur here. -/
def isJsWs (c : Char) : Bool :=
  c = ' ' || c = '\t' || c = '\n' || c = '\r' || c = '\x0b' || c = '\x0c'

/-- JS `\S` character class. -/
def isNonWs (c : Char) : Bool := !(isJsWs c)

/-- Left part of `String.prototype.trim`. -/
def trimLeftL (l : List Char) : List Char := l.dropWhile isJsWs

/-- Right part of `String.prototype.trim`. -/
def trimRightL (l : List Char) : List Char := (l.reverse.dropWhile isJsWs).reverse

/-- `String.prototype.trim` on char lists. -/
def trimL (l : List Char) : List Char := trimRightL (trimLeftL l)

/-- Splitting on a separator character, as JS `content.split(sep)` with a
one-character separator: empty pieces are kept. -/
def splitOnCharL (sep : Char) : List Char → List (List Char)
  | [] => [[]]
  | c :: rest =>
    let r := splitOnCharL sep rest
    if c = sep then [] :: r
    else
      match r with
      | [] => [[c]]
      | h :: t => (c :: h) :: t

/-! ## Version-number regex matchers

`matchNum3At` matches `\d+\.\d+\.\d+` at the start of a list (greedy `\d+`;
since `.` is not a digit no backtracking can occur), `findVer3` scans for the
leftmost match, mirroring `v.match(/\d+\.\d+\.\d+/)`.  `matchNum2At` /
`findVer2` do the same for `\d+\.\d+(?:\.\d+)?`, where the optional group is
taken greedily and dropped if no digit follows the dot. -/

def matchNum3At (l : List Char) : Option (List Char) :=
  let a := l.takeWhile Char.isDigit
  if a.isEmpty then none
  else
    let r1 := l.dropWhile Char.isDigit
    if r1.head? = some '.' then
      let b := r1.tail.takeWhile Char.isDigit
      if b.isEmpty then none
      else
        let r3 := r1.tail.dropWhile Char.isDigit
        if r3.head? = some '.' then
          let c := r3.tail.takeWhile Char.isDigit
          if c.isEmpty then none else some (a ++ '.' :: b ++ '.' :: c)
        else none
    else none

def findVer3 : List Char → Option (List Char)
  | [] => none
  | c :: rest =>
    match matchNum3At (c :: rest) with
    | some m => some m
    | none => findVer3 rest

def matchNum2At (l : List Char) : Option (List Char) :=
  let a := l.takeWhile Char.isDigit
  if a.isEmpty then none
  else
    let r1 := l.dropWhile Char.isDigit
    if r1.head? = some '.' then
      let b := r1.tail.takeWhile Char.isDigit
      if b.isEmpty then none
      else
        let r3 := r1.tail.dropWhile Char.isDigit
        if r3.head? = some '.' then
          let c := r3.tail.takeWhile Char.isDigit
          if c.isEmpty then some (a ++ '.' :: b) else some (a ++ '.' :: b ++ '.' :: c)
        else some (a ++ '.' :: b)
    else none

def findVer2 : List Char → Option (List Char)
  | [] => none
  | c :: rest =>
    match matchNum2At (c :: rest) with
    | some m => some m
    | none => findVer2 rest

/-! ## Version normalization (detection.ts `ver` and python.ts `ver`) -/

/-- The range-operator characters stripped by `v.replace(/[\^~>=<]/g, "")`. -/
def isRangeChar (c : Char) : Bool :=
  c = '^' || c = '~' || c = '>' || c = '=' || c = '<'

def stripRangeL (l : List Char) : List Char := l.filter (fun c => !(isRangeChar c))

/-- First lookup in `deps`, then in `devDeps`: `deps[name] ?? devDeps[name]`. -/
def lookup2 (name : String) (deps devDeps : List (String × String)) : Option String :=
  match deps.lookup name with
  | some v => some v
  | none => devDeps.lookup name

/-- Normalization core of detection.ts `ver` applied to a present version
string, on char lists: first `\d+\.\d+\.\d+` match if any, otherwise strip
range operators and trim. -/
def jsNormCoreL (l : List Char) : List Char :=
  match findVer3 l with
  | some m => m
  | none => trimL (stripRangeL l)

/-- The same normalization on strings. -/
def jsNormCore (v : String) : String := ⟨jsNormCoreL v.data⟩

/-- detection.ts `ver`: missing or falsy (empty) version gives null. -/
def jsVer (name : String) (deps devDeps : List (String × String)) : Option String :=
  match lookup2 name deps devDeps with
  | none => none
  | some v => if v = "" then none else some (jsNormCore v)

/-- Normalization core of python.ts `ver` applied to a present, non-wildcard
version string, on char lists: first `\d+\.\d+(?:\.\d+)?` match if any,
otherwise the raw string. -/
def pyNormCoreL (l : List Char) : List Char :=
  match findVer2 l with
  | some m => m
  | none => l

/-- The same normalization on strings. -/
def pyNormCore (v : String) : String := ⟨pyNormCoreL v.data⟩

/-- python.ts `ver`: missing, empty, or the wildcard sentinel gives null. -/
def pyVer (name : String) (deps devDeps : List (String × String)) : Option String :=
  match lookup2 name deps devDeps with
  | none => none
  | some v => if v = "" || v = "*" then none else some (pyNormCore v)

/-! ## Data model of the JavaScript analyzer (types.ts)

Only the `StructureInfo` fields consulted by detection.ts are embedded. -/

structure StructureInfo where
  hasAppDir : Bool
  hasPagesDir : Bool
  topLevelDirs : List String
  srcDirs : List String
deriving DecidableEq

structure FrameworkInfo where
  name : String
  version : String
  variant : Option String := none
deriving DecidableEq

structure RecognizedTech where
  name : String
  version : Option String
  category : String
deriving DecidableEq

structure DetectedStack where
  recognized : List (String × RecognizedTech)
  unrecognized : List String
deriving DecidableEq

/-! ## detection.ts: framework detection -/

/-- `name in deps || name in devDeps` (the `has` helper). -/
def hasDep (name : String) (deps devDeps : List (String × String)) : Bool :=
  (deps.lookup name).isSome || (devDeps.lookup name).isSome

/-- The `hasAny` helper. -/
def hasAnyDep (names : List String) (deps devDeps : List (String × String)) : Bool :=
  names.any (fun n => hasDep n deps devDeps)

/-- detection.ts `detectFramework`: ordered if-chain, first match wins. -/
def detectFramework (deps devDeps : List (String × String)) (si : StructureInfo) :
    Option FrameworkInfo :=
  if hasDep "next" deps devDeps then
    some { name := "next", version := (jsVer "next" deps devDeps).getD "unknown",
           variant := some (if si.hasAppDir then "app-router"
                            else if si.hasPagesDir then "pages-router" else "unknown") }
  else if hasDep "nuxt" deps devDeps then
    some { name := "nuxt", version := (jsVer "nuxt" deps devDeps).getD "unknown" }
  else if hasAnyDep ["@remix-run/react", "@remix-run/node"] deps devDeps then
    some { name := "remix", version := (jsVer "@remix-run/react" deps devDeps).getD "unknown" }
  else if hasDep "astro" deps devDeps then
    some { name := "astro", version := (jsVer "astro" deps devDeps).getD "unknown" }
  else if hasDep "@sveltejs/kit" deps devDeps then
    some { name := "sveltekit", version := (jsVer "@sveltejs/kit" deps devDeps).getD "unknown" }
  else if hasDep "@solidjs/start" deps devDeps then
    some { name := "solid-start", version := (jsVer "@solidjs/start" deps devDeps).getD "unknown" }
  else if hasDep "vite" deps devDeps && hasDep "react" deps devDeps then
    some { name := "vite-react", version := (jsVer "vite" deps devDeps).getD "unknown" }
  else if hasDep "express" deps devDeps then
    some { name := "express", version := (jsVer "express" deps devDeps).getD "unknown" }
  else if hasDep "fastify" deps devDeps then
    some { name := "fastify", version := (jsVer "fastify" deps devDeps).getD "unknown" }
  else if hasDep "hono" deps devDeps then
    some { name := "hono", version := (jsVer "hono" deps devDeps).getD "unknown" }
  else if hasDep "react" deps devDeps then
    some { name := "react", version := (jsVer "react" deps devDeps).getD "unknown" }
  else none

/-- The dependency keys appearing in the `detectFramework` precedence list. -/
def frameworkTriggerKeys : List String :=
  ["next", "nuxt", "@remix-run/react", "@remix-run/node", "astro", "@sveltejs/kit",
   "@solidjs/start", "vite", "react", "express", "fastify", "hono"]

/-- The trigger keys of `detectFramework` that alone force a non-null result
(every key of the precedence list except "vite", which only fires together
with "react"). -/
def singleTriggerKeys : List String :=
  ["next", "nuxt", "@remix-run/react", "@remix-run/node", "astro", "@sveltejs/kit",
   "@solidjs/start", "express", "fastify", "hono", "react"]

/-! ## detection.ts: stack classification rules -/

/-- Heuristic rule record; the optional `condition` mirrors the TS closure. -/
structure Rule where
  packages : List String
  name : String
  category : String
  versionFrom : Option String := none
  condition : Option (List (String × String) → Option StructureInfo → Bool) := none

/-- Shorthand for a rule with neither `versionFrom` nor `condition`. -/
def R (pkgs : List String) (nm cat : String) : Rule := ⟨pkgs, nm, cat, none, none⟩

/-- The corroborating condition of the shadcn rule. -/
def shadcnCond (all : List (String × String)) (si : Option StructureInfo) : Bool :=
  (all.lookup "tailwindcss").isSome && (all.lookup "class-variance-authority").isSome &&
    (match si with
     | none => true
     | some s => s.topLevelDirs.contains "components" || s.srcDirs.contains "components")

def shadcnRule : Rule :=
  ⟨["@radix-ui/react-slot", "@radix-ui/react-dialog", "@radix-ui/react-dropdown-menu",
    "@radix-ui/react-separator"],
   "shadcn", "ui-components", some "__none__", some shadcnCond⟩

def radixRule : Rule :=
  R ["@radix-ui/react-slot", "@radix-ui/react-dialog", "@radix-ui/react-dropdown-menu"]
    "radix" "ui-components"

/-- All rules of detection.ts `RULES` that precede the shadcn rule, in order. -/
def RULES_BEFORE_SHADCN : List Rule := [
  R ["prisma", "@prisma/client"] "prisma" "orm",
  R ["drizzle-orm"] "drizzle" "orm",
  R ["typeorm"] "typeorm" "orm",
  R ["@mikro-orm/core"] "mikro-orm" "orm",
  R ["kysely"] "kysely" "orm",
  R ["mongoose"] "mongoose" "orm",
  R ["sequelize"] "sequelize" "orm",
  R ["objection"] "objection" "orm",
  R ["@neondatabase/serverless"] "neon" "database-driver",
  R ["libsql", "@libsql/client"] "libsql" "database-driver",
  R ["better-sqlite3"] "better-sqlite3" "database-driver",
  R ["knex"] "knex" "query-builder",
  R ["next-auth", "@auth/core"] "next-auth" "auth",
  R ["@clerk/nextjs", "@clerk/clerk-sdk-node"] "clerk" "auth",
  R ["lucia", "@lucia-auth/adapter-prisma"] "lucia" "auth",
  R ["@supabase/auth-helpers-nextjs", "@supabase/ssr"] "supabase-auth" "auth",
  R ["passport"] "passport" "auth",
  R ["better-auth"] "better-auth" "auth",
  R ["@kinde-oss/kinde-auth-nextjs"] "kinde" "auth",
  R ["@auth0/nextjs-auth0", "@auth0/auth0-react"] "auth0" "auth",
  R ["firebase-admin"] "firebase" "auth",
  R ["@workos-inc/node"] "workos" "auth",
  R ["jsonwebtoken", "jose"] "jwt" "auth",
  R ["zod"] "zod" "validation",
  R ["yup"] "yup" "validation",
  R ["joi"] "joi" "validation",
  R ["valibot"] "valibot" "validation",
  R ["arktype"] "arktype" "validation",
  R ["tailwindcss"] "tailwind" "css",
  R ["@chakra-ui/react"] "chakra" "css",
  R ["@mui/material"] "mui" "css",
  R ["styled-components"] "styled-components" "css",
  R ["@emotion/react"] "emotion" "css",
  R ["@pandacss/dev"] "panda" "css",
  R ["@vanilla-extract/css"] "vanilla-extract" "css",
  R ["unocss"] "unocss" "css",
  R ["@mantine/core"] "mantine" "css",
  R ["antd"] "ant-design" "css",
  R ["sass"] "sass" "css",
  R ["bootstrap"] "bootstrap" "css",
  R ["vitest"] "vitest" "testing",
  R ["jest"] "jest" "testing",
  R ["@playwright/test"] "playwright" "testing",
  R ["cypress"] "cypress" "testing",
  R ["@testing-library/react"] "testing-library" "testing",
  R ["msw"] "msw" "testing",
  R ["supertest"] "supertest" "testing",
  R ["zustand"] "zustand" "state",
  R ["@reduxjs/toolkit", "redux"] "redux" "state",
  R ["jotai"] "jotai" "state",
  R ["valtio"] "valtio" "state",
  R ["@xstate/react", "xstate"] "xstate" "state",
  R ["recoil"] "recoil" "state",
  R ["mobx", "mobx-react-lite"] "mobx" "state",
  R ["@tanstack/react-query"] "react-query" "data-fetching",
  R ["swr"] "swr" "data-fetching",
  R ["@apollo/client"] "apollo" "data-fetching",
  R ["urql"] "urql" "data-fetching",
  R ["react-hook-form"] "react-hook-form" "forms",
  R ["formik"] "formik" "forms",
  R ["@tanstack/react-form"] "tanstack-form" "forms",
  R ["@trpc/server", "@trpc/client"] "trpc" "api",
  R ["graphql"] "graphql" "api",
  R ["vite"] "vite" "bundler",
  R ["webpack"] "webpack" "bundler",
  R ["esbuild"] "esbuild" "bundler",
  R ["tsup"] "tsup" "bundler",
  R ["rollup"] "rollup" "bundler",
  R ["eslint"] "eslint" "linter",
  R ["@biomejs/biome", "biome"] "biome" "linter",
  R ["prettier"] "prettier" "formatter",
  R ["next-intl"] "next-intl" "i18n",
  R ["i18next", "react-i18next"] "i18next" "i18n",
  R ["@lingui/core"] "lingui" "i18n",
  R ["react-intl"] "react-intl" "i18n",
  R ["turbo"] "turborepo" "monorepo",
  R ["nx"] "nx" "monorepo",
  R ["lerna"] "lerna" "monorepo",
  R ["pg", "postgres"] "postgres" "database",
  R ["mysql2"] "mysql" "database",
  R ["mongodb"] "mongodb" "database",
  R ["@supabase/supabase-js"] "supabase" "database",
  R ["@planetscale/database"] "planetscale" "database",
  R ["ioredis", "@upstash/redis"] "redis" "database",
  R ["@vercel/postgres"] "vercel-postgres" "database",
  R ["resend"] "resend" "email",
  R ["nodemailer"] "nodemailer" "email",
  R ["@sendgrid/mail"] "sendgrid" "email",
  R ["postmark"] "postmark" "email",
  R ["@react-email/components"] "react-email" "email",
  R ["uploadthing"] "uploadthing" "file-upload",
  R ["@vercel/blob"] "vercel-blob" "file-upload",
  R ["multer"] "multer" "file-upload",
  R ["@aws-sdk/client-s3"] "s3" "file-upload",
  R ["cloudinary"] "cloudinary" "file-upload",
  R ["stripe", "@stripe/stripe-js"] "stripe" "payments",
  R ["@lemonsqueezy/lemonsqueezy.js"] "lemonsqueezy" "payments",
  R ["socket.io", "socket.io-client"] "socket.io" "realtime",
  R ["pusher", "pusher-js"] "pusher" "realtime",
  R ["ably"] "ably" "realtime",
  R ["@supabase/realtime-js"] "supabase-realtime" "realtime",
  R ["contentlayer", "contentlayer2"] "contentlayer" "cms",
  R ["next-mdx-remote"] "mdx-remote" "cms",
  R ["@sanity/client"] "sanity" "cms",
  R ["@notionhq/client"] "notion" "cms",
  R ["contentful"] "contentful" "cms",
  R ["@strapi/strapi"] "strapi" "cms",
  R ["bullmq", "bull"] "bullmq" "jobs",
  R ["inngest"] "inngest" "jobs",
  R ["@trigger.dev/sdk"] "trigger-dev" "jobs"]

/-- All rules of detection.ts `RULES` that follow the radix rule, in order. -/
def RULES_AFTER_RADIX : List Rule := [
  R ["@headlessui/react"] "headless-ui" "ui-components",
  R ["@ark-ui/react"] "ark-ui" "ui-components",
  R ["@nextui-org/react"] "nextui" "ui-components",
  R ["@tremor/react"] "tremor" "ui-components",
  R ["primereact"] "primereact" "ui-components",
  R ["react-bootstrap"] "react-bootstrap" "ui-components",
  R ["flowbite-react"] "flowbite" "ui-components",
  R ["@sentry/nextjs", "@sentry/node", "@sentry/react"] "sentry" "observability",
  R ["winston"] "winston" "logging",
  R ["pino"] "pino" "logging",
  R ["@vercel/analytics", "@vercel/speed-insights"] "vercel" "deployment",
  R ["@netlify/functions"] "netlify" "deployment",
  R ["wrangler", "@cloudflare/workers-types"] "cloudflare" "deployment"]

/-- detection.ts `RULES`, in source order. -/
def RULES : List Rule := RULES_BEFORE_SHADCN ++ shadcnRule :: radixRule :: RULES_AFTER_RADIX

/-- detection.ts `NOISE_PREFIXES`. -/
def NOISE_PREFIXES : List String := ["@types/", "@typescript-eslint/"]

/-- detection.ts `NOISE_EXACT` (a JS `Set`, modelled by its member list). -/
def NOISE_EXACT : List String :=
  ["typescript", "tslib", "@types/node", "@types/react", "@types/react-dom",
   "eslint-config-next", "eslint-config-prettier", "autoprefixer", "postcss"]

/-- The hard-coded framework-package skip list in `detectStack`. -/
def FRAMEWORK_PACKAGES : List String :=
  ["next", "nuxt", "react", "react-dom", "astro", "vite", "express", "fastify", "hono",
   "@remix-run/react", "@remix-run/node", "@sveltejs/kit", "@solidjs/start"]

/-- `pkg.startsWith(prefix)` over the noise prefixes. -/
def hasNoisePre (pkg : String) : Bool :=
  NOISE_PREFIXES.any (fun p => p.data.isPrefixOf pkg.data)

/-! ## detection.ts: `detectStack` -/

/-- The spread `{...deps, ...devDeps}`: keys of `deps` in order (values
overridden by `devDeps` where present), then the new keys of `devDeps`. -/
def mergeAll (deps devDeps : List (String × String)) : List (String × String) :=
  deps.map (fun kv => (kv.1, match devDeps.lookup kv.1 with
                             | some v => v
                             | none => kv.2)) ++
    devDeps.filter (fun kv => (deps.lookup kv.1).isNone)

/-- Loop state of `detectStack`: the `recognized` record (in insertion
order) and the `matchedPackages` set (as a list, membership-equal). -/
structure DSState where
  recognized : List (String × RecognizedTech)
  matched : List String

/-- Evaluation of the optional rule condition:
`if (rule.condition && !rule.condition(all, structure)) continue`. -/
def condHolds (c : Option (List (String × String) → Option StructureInfo → Bool))
    (all : List (String × String)) (si : Option StructureInfo) : Bool :=
  match c with
  | none => true
  | some f => f all si

/-- The `RecognizedTech` recorded when a rule fires:
`versionPkg = rule.versionFrom ?? rule.packages[0]` (all source rules have a
nonempty package list, so the `headD` default is never taken). -/
def mkTech (rule : Rule) (deps devDeps : List (String × String)) : RecognizedTech :=
  { name := rule.name,
    version := jsVer (rule.versionFrom.getD (rule.packages.headD "")) deps devDeps,
    category := rule.category }

/-- One iteration of the `for (const rule of RULES)` loop. -/
def stepRule (deps devDeps all : List (String × String)) (si : Option StructureInfo)
    (st : DSState) (rule : Rule) : DSState :=
  if (st.recognized.lookup rule.name).isSome then st
  else
    let matchingPkgs := rule.packages.filter (fun p => (all.lookup p).isSome)
    if matchingPkgs.isEmpty then st
    else if matchingPkgs.all (fun p => st.matched.contains p) then st
    else if !(condHolds rule.condition all si) then st
    else
      { recognized := st.recognized ++ [(rule.name, mkTech rule deps devDeps)],
        matched := st.matched ++ matchingPkgs }

/-- The rule loop of `detectStack`. -/
def detectStackState (deps devDeps : List (String × String)) (si : Option StructureInfo) :
    DSState :=
  RULES.foldl (stepRule deps devDeps (mergeAll deps devDeps) si) ⟨[], []⟩

/-- detection.ts `detectStack`. -/
def detectStack (deps devDeps : List (String × String)) (si : Option StructureInfo) :
    DetectedStack :=
  let all := mergeAll deps devDeps
  let st := detectStackState deps devDeps si
  let unrecognized := (all.map Prod.fst).filter (fun pkg =>
    !(st.matched.contains pkg) && !(NOISE_EXACT.contains pkg) && !(hasNoisePre pkg)
      && !(FRAMEWORK_PACKAGES.contains pkg))
  { recognized := st.recognized, unrecognized := unrecognized }

/-! ## ecosystem.ts: ecosystem detection and adapter registry

Filesystem probing is abstracted by `entries`, the list of names present at
the project root: `stat(join(projectPath, file))` succeeds iff
`file ∈ entries`, and `readdir(projectPath)` returns `entries`. The original
throws when nothing matches; this is modelled by `none`. -/

inductive Ecosystem where
  | javascript | python | rust | go | java | php | ruby
deriving DecidableEq

def ecosystemName : Ecosystem → String
  | .javascript => "javascript"
  | .python => "python"
  | .rust => "rust"
  | .go => "go"
  | .java => "java"
  | .php => "php"
  | .ruby => "ruby"

inductive Confidence where
  | high | medium | low
deriving DecidableEq

structure ManifestCheck where
  files : List String
  ecosystem : Ecosystem
  confidence : Confidence
  glob : Bool := false

/-- ecosystem.ts `MANIFEST_CHECKS`, in priority order. -/
def MANIFEST_CHECKS : List ManifestCheck :=
  [⟨["package.json"], .javascript, .high, false⟩,
   ⟨["pyproject.toml"], .python, .high, false⟩,
   ⟨["requirements.txt", "setup.py", "Pipfile"], .python, .medium, false⟩,
   ⟨["Cargo.toml"], .rust, .high, false⟩,
   ⟨["go.mod"], .go, .high, false⟩,
   ⟨["pom.xml", "build.gradle", "build.gradle.kts"], .java, .high, false⟩,
   ⟨["composer.json"], .php, .high, false⟩,
   ⟨["Gemfile"], .ruby, .high, false⟩,
   ⟨["*.gemspec"], .ruby, .medium, true⟩]

structure EcosystemDetection where
  ecosystem : Ecosystem
  confidence : Confidence
  manifestFiles : List String
  reason : String
deriving DecidableEq

/-- The glob test built by `file.replace(".", "\\.").replace("*", ".*")` and
anchored with `^...$`: for the only glob pattern used, a leading `*` followed
by a literal rest, an entry matches iff it ends with that rest. Other shapes
never reach this code (the glob flag is set only on the `*.gemspec` tuple)
and regex-match as plain string equality. -/
def globMatch (pattern entry : String) : Bool :=
  match pattern.data with
  | '*' :: rest => rest.isSuffixOf entry.data
  | _ => pattern = entry

/-- One candidate-file probe of the inner loop of `detectEcosystem`. -/
def fileCheckResult (entries : List String) (check : ManifestCheck) (file : String) :
    Option EcosystemDetection :=
  if check.glob && file.data.contains '*' then
    if (entries.filter (fun e => globMatch file e)).isEmpty then none
    else some { ecosystem := check.ecosystem, confidence := check.confidence,
                manifestFiles := entries.filter (fun e => globMatch file e),
                reason := "Found " ++
                  String.intercalate ", " (entries.filter (fun e => globMatch file e)) }
  else
    if entries.contains file then
      some { ecosystem := check.ecosystem, confidence := check.confidence,
             manifestFiles := [file], reason := "Found " ++ file }
    else none

/-- The inner `for (const file of check.files)` loop: first hit wins. -/
def checkTuple (entries : List String) (check : ManifestCheck) : Option EcosystemDetection :=
  checkFiles entries check check.files
where
  checkFiles (entries : List String) (check : ManifestCheck) :
      List String → Option EcosystemDetection
    | [] => none
    | f :: fs =>
      match fileCheckResult entries check f with
      | some d => some d
      | none => checkFiles entries check fs

/-- The outer `for (const check of MANIFEST_CHECKS)` loop. -/
def scanChecks (entries : List String) : List ManifestCheck → Option EcosystemDetection
  | [] => none
  | c :: cs =>
    match checkTuple entries c with
    | some d => some d
    | none => scanChecks entries cs

/-- ecosystem.ts `detectEcosystem` over the abstract root listing. -/
def detectEcosystem (entries : List String) : Option EcosystemDetection :=
  scanChecks entries MANIFEST_CHECKS

/-- The concrete adapter classes; their construction carries no data relevant
to resolution, so each is embedded as a tag. -/
inductive AdapterTag where
  | javascriptAdapter | pythonAdapter | rustAdapter | goAdapter | javaAdapter | phpAdapter
deriving DecidableEq

/-- The error message of the registry's default branch (the template string
interpolates the ecosystem identifier). -/
def unsupportedMsg (e : Ecosystem) : String :=
  "Ecosystem \"" ++ ecosystemName e ++
    "\" is not yet supported. Currently supported: javascript, python, rust, go, java, php"

/-- ecosystem.ts `getEcosystemAdapter`; the thrown error becomes `Except.error`. -/
def getEcosystemAdapter : Ecosystem → Except String AdapterTag
  | .javascript => .ok .javascriptAdapter
  | .python => .ok .pythonAdapter
  | .rust => .ok .rustAdapter
  | .go => .ok .goAdapter
  | .java => .ok .javaAdapter
  | .php => .ok .phpAdapter
  | .ruby => .error (unsupportedMsg .ruby)

/-! ## GoAdapter: `parseGoMod`

The line regexes are implemented on char lists:
`^module\s+(.+)$`, `^go\s+(\d+\.\d+(?:\.\d+)?)$`, `^require\s+(\S+)\s+(\S+)`
and `^(\S+)\s+(\S+)`. In each, the quantified classes are disjoint from the
following literal, so greedy matching without further backtracking is exact;
the one real backtracking case (`\s+(.+)$` on trailing whitespace) is coded
explicitly. `.` never needs to exclude a newline since lines are split on
newlines first. -/

/-- Match a literal word at the start of the list. -/
def stripWord (w l : List Char) : Option (List Char) :=
  if l.take w.length = w then some (l.drop w.length) else none

/-- `^module\s+(.+)$`: returns the capture. When everything after the word is
whitespace, the greedy `\s+` backtracks one character so that `(.+)` can
still match, capturing that final whitespace character. -/
def matchModule (l : List Char) : Option (List Char) :=
  match stripWord "module".data l with
  | none => none
  | some rest =>
    let w := rest.takeWhile isJsWs
    if w.isEmpty then none
    else
      let r := rest.dropWhile isJsWs
      if r.isEmpty then
        if 2 ≤ w.length then some (w.drop (w.length - 1)) else none
      else some r

/-- `^go\s+(\d+\.\d+(?:\.\d+)?)$`: the end anchor forces the version match to
consume the entire remainder. -/
def matchGoVersion (l : List Char) : Option (List Char) :=
  match stripWord "go".data l with
  | none => none
  | some rest =>
    if (rest.takeWhile isJsWs).isEmpty then none
    else
      let r := rest.dropWhile isJsWs
      match matchNum2At r with
      | none => none
      | some m => if r = m then some m else none

/-- `^require\s+(\S+)\s+(\S+)`: both captures. -/
def matchRequireSingle (l : List Char) : Option (List Char × List Char) :=
  match stripWord "require".data l with
  | none => none
  | some rest =>
    if (rest.takeWhile isJsWs).isEmpty then none
    else
      let r1 := rest.dropWhile isJsWs
      let t1 := r1.takeWhile isNonWs
      if t1.isEmpty then none
      else
        let r2 := r1.dropWhile isNonWs
        if (r2.takeWhile isJsWs).isEmpty then none
        else
          let r3 := r2.dropWhile isJsWs
          let t2 := r3.takeWhile isNonWs
          if t2.isEmpty then none else some (t1, t2)

/-- `^(\S+)\s+(\S+)`: both captures. -/
def matchBlockDep (l : List Char) : Option (List Char × List Char) :=
  let t1 := l.takeWhile isNonWs
  if t1.isEmpty then none
  else
    let r1 := l.dropWhile isNonWs
    if (r1.takeWhile isJsWs).isEmpty then none
    else
      let r2 := r1.dropWhile isJsWs
      let t2 := r2.takeWhile isNonWs
      if t2.isEmpty then none else some (t1, t2)

/-- JS object entry assignment `obj[k] = v` on an association list: replace
the value in place if the key exists, else append. -/
def assocSet (l : List (String × String)) (k v : String) : List (String × String) :=
  if (l.lookup k).isSome then l.map (fun kv => if kv.1 = k then (k, v) else kv)
  else l ++ [(k, v)]

structure GoModState where
  moduleName : String
  goVersion : String
  inBlock : Bool
  deps : List (String × String)
deriving DecidableEq

/-- One iteration of the line loop of `parseGoMod`, on the line's char
list. -/
def goModLineL (st : GoModState) (l : List Char) : GoModState :=
  let t := trimL l
  match matchModule t with
  | some cap => { st with moduleName := ⟨trimL cap⟩ }
  | none =>
    match matchGoVersion t with
    | some gv => { st with goVersion := ⟨gv⟩ }
    | none =>
      if t = "require (".data then { st with inBlock := true }
      else if t = ")".data && st.inBlock then { st with inBlock := false }
      else
        match matchRequireSingle t with
        | some (m, v) => { st with deps := assocSet st.deps ⟨m⟩ ⟨v⟩ }
        | none =>
          if st.inBlock then
            match matchBlockDep t with
            | some (m, v) =>
              if "//".data.isPrefixOf m then st
              else { st with deps := assocSet st.deps ⟨m⟩ ⟨v⟩ }
            | none => st
          else st

/-- One iteration of the line loop of `parseGoMod`. -/
def goModLine (st : GoModState) (line : String) : GoModState := goModLineL st line.data

/-- The full line loop, from the initial state of `parseGoMod`. -/
def parseGoModLines (lines : List String) : GoModState :=
  lines.foldl goModLine ⟨"unknown", "", false, []⟩

/-- GoAdapter `parseGoMod` on the raw file content. -/
def parseGoMod (content : String) : GoModState :=
  parseGoModLines ((splitOnCharL '\n' content.data).map (fun l => ⟨l⟩))

/-! ## PhpAdapter: the `require` splitting of `parseDependencies`

Only the pure loop separating the `php` engine constraint and `ext-*`
extensions from real dependencies is embedded; the surrounding file I/O and
script collection do not touch these two maps. -/

/-- The `notable` extension list of PhpAdapter. -/
def PHP_NOTABLE : List String :=
  ["ext-redis", "ext-mongodb", "ext-imagick", "ext-gd", "ext-swoole", "ext-grpc", "ext-amqp"]

/-- One iteration of `for (const [name, version] of Object.entries(require))`;
the accumulator is `(engines, dependencies)`. -/
def phpStep (acc : List (String × String) × List (String × String)) (kv : String × String) :
    List (String × String) × List (String × String) :=
  if kv.1 = "php" then (assocSet acc.1 "php" kv.2, acc.2)
  else if "ext-".data.isPrefixOf kv.1.data then
    if PHP_NOTABLE.contains kv.1 then (assocSet acc.1 kv.1 kv.2, acc.2) else acc
  else (acc.1, assocSet acc.2 kv.1 kv.2)

/-- The loop over the composer `require` object: returns
`(engines, dependencies)`. -/
def phpSplitRequire (req : List (String × String)) :
    List (String × String) × List (String × String) :=
  req.foldl phpStep ([], [])

/-! # Theorems

General lemmas about `takeWhile`, `dropWhile` and trimming. -/

theorem takeWhile_head_false {p : Char → Bool} {l : List Char}
    (h : ∀ c ∈ l.head?, p c = false) : l.takeWhile p = [] := by
  cases l with
  | nil => rfl
  | cons c r => simp [List.takeWhile_cons, h c (by simp)]

theorem dropWhile_head_false {p : Char → Bool} {l : List Char}
    (h : ∀ c ∈ l.head?, p c = false) : l.dropWhile p = l := by
  cases l with
  | nil => rfl
  | cons c r => simp [List.dropWhile_cons, h c (by simp)]

theorem head_false_of_dropWhile_eq_self {p : Char → Bool} {l : List Char}
    (h : l.dropWhile p = l) : ∀ c ∈ l.head?, p c = false := by
  cases l with
  | nil => simp
  | cons c r =>
    intro x hx
    have hx' : x = c := by simpa [eq_comm] using hx
    subst hx'
    by_contra hpc
    have hpc' : p x = true := by simpa using hpc
    rw [List.dropWhile_cons_of_pos hpc'] at h
    have hle : (r.dropWhile p).length ≤ r.length := (List.dropWhile_suffix p).length_le
    have hlen := congrArg List.length h
    simp only [List.length_cons] at hlen
    omega

theorem dropWhile_idem {p : Char → Bool} (l : List Char) :
    (l.dropWhile p).dropWhile p = l.dropWhile p := by
  induction l with
  | nil => rfl
  | cons c r ih =>
    cases hc : p c with
    | true => rw [List.dropWhile_cons_of_pos hc]; exact ih
    | false =>
      rw [List.dropWhile_cons_of_neg (by simp [hc])]
      rw [List.dropWhile_cons_of_neg (by simp [hc])]

/-- Splitting a list at a token boundary: `takeWhile` stops exactly at `b`. -/
theorem takeWhile_token {p : Char → Bool} {a b : List Char}
    (ha : ∀ c ∈ a, p c = true) (hb : ∀ c ∈ b.head?, p c = false) :
    (a ++ b).takeWhile p = a := by
  rw [List.takeWhile_append_of_pos ha, takeWhile_head_false hb, List.append_nil]

/-- Splitting a list at a token boundary: `dropWhile` stops exactly at `b`. -/
theorem dropWhile_token {p : Char → Bool} {a b : List Char}
    (ha : ∀ c ∈ a, p c = true) (hb : ∀ c ∈ b.head?, p c = false) :
    (a ++ b).dropWhile p = b := by
  rw [List.dropWhile_append_of_pos ha, dropWhile_head_false hb]

theorem trimRightL_prefix (l : List Char) : trimRightL l <+: l := by
  have h : (trimRightL l).reverse <:+ l.reverse := by
    unfold trimRightL
    rw [List.reverse_reverse]
    exact List.dropWhile_suffix _
  exact List.reverse_suffix.mp h

theorem trimRightL_dropWhile {l : List Char} (h : l.dropWhile isJsWs = l) :
    (trimRightL l).dropWhile isJsWs = trimRightL l := by
  obtain ⟨t, ht⟩ := trimRightL_prefix l
  apply dropWhile_head_false
  intro c hc
  cases hl : trimRightL l with
  | nil => rw [hl] at hc; simp at hc
  | cons x r =>
    rw [hl] at hc
    have hc' : c = x := by simpa [eq_comm] using hc
    subst hc'
    have hhead : l.head? = some c := by rw [← ht, hl]; simp
    exact head_false_of_dropWhile_eq_self h c hhead

theorem trimRightL_idem (l : List Char) : trimRightL (trimRightL l) = trimRightL l := by
  unfold trimRightL
  rw [List.reverse_reverse, dropWhile_idem]

theorem trimL_idem (l : List Char) : trimL (trimL l) = trimL l := by
  unfold trimL trimLeftL
  rw [trimRightL_dropWhile (dropWhile_idem l), trimRightL_idem]

theorem mem_trimL {x : Char} {l : List Char} (h : x ∈ trimL l) : x ∈ l := by
  unfold trimL trimRightL trimLeftL at h
  have h1 := List.mem_reverse.mp h
  have h2 := (List.dropWhile_suffix isJsWs).subset h1
  have h3 := List.mem_reverse.mp h2
  exact (List.dropWhile_suffix isJsWs).subset h3

/-! Shape and self-matching lemmas for the version regex matchers. -/

theorem matchNum3At_shape {l m : List Char} (h : matchNum3At l = some m) :
    ∃ a b c : List Char,
      a ≠ [] ∧ b ≠ [] ∧ c ≠ [] ∧
      (∀ x ∈ a, x.isDigit = true) ∧ (∀ x ∈ b, x.isDigit = true) ∧
      (∀ x ∈ c, x.isDigit = true) ∧ m = a ++ '.' :: b ++ '.' :: c := by
  simp only [matchNum3At] at h
  by_cases h1 : (l.takeWhile Char.isDigit).isEmpty
  · simp [h1] at h
  · rw [if_neg h1] at h
    by_cases h2 : (l.dropWhile Char.isDigit).head? = some '.'
    · rw [if_pos h2] at h
      by_cases h3 : ((l.dropWhile Char.isDigit).tail.takeWhile Char.isDigit).isEmpty
      · simp [h3] at h
      · rw [if_neg h3] at h
        by_cases h4 : ((l.dropWhile Char.isDigit).tail.dropWhile Char.isDigit).head? = some '.'
        · rw [if_pos h4] at h
          by_cases h5 :
            (((l.dropWhile Char.isDigit).tail.dropWhile Char.isDigit).tail.takeWhile
              Char.isDigit).isEmpty
          · simp [h5] at h
          · rw [if_neg h5] at h
            simp only [Option.some.injEq] at h
            exact ⟨_, _, _, by simpa using h1, by simpa using h3, by simpa using h5,
              fun x hx => List.mem_takeWhile_imp hx, fun x hx => List.mem_takeWhile_imp hx,
              fun x hx => List.mem_takeWhile_imp hx, h.symm⟩
        · simp [h4] at h
    · simp [h2] at h

theorem matchNum3At_self {a b c : List Char}
    (ha : a ≠ []) (hb : b ≠ []) (hc : c ≠ [])
    (da : ∀ x ∈ a, x.isDigit = true) (db : ∀ x ∈ b, x.isDigit = true)
    (dc : ∀ x ∈ c, x.isDigit = true) :
    matchNum3At (a ++ '.' :: b ++ '.' :: c) = some (a ++ '.' :: b ++ '.' :: c) := by
  have hdotb : ∀ x ∈ (('.' :: (b ++ '.' :: c)) : List Char).head?, Char.isDigit x = false := by
    simp
  have hdotc : ∀ x ∈ (('.' :: c) : List Char).head?, Char.isDigit x = false := by simp
  have e0 : a ++ '.' :: b ++ '.' :: c = a ++ ('.' :: (b ++ '.' :: c)) := by simp
  simp only [matchNum3At]
  rw [e0, takeWhile_token da hdotb, dropWhile_token da hdotb]
  simp only [List.head?_cons, List.tail_cons]
  rw [takeWhile_token db hdotc, dropWhile_token db hdotc]
  simp only [List.head?_cons, List.tail_cons]
  rw [List.takeWhile_eq_self_iff.mpr dc]
  simp [ha, hb, hc]

theorem findVer3_exact {a b c : List Char}
    (ha : a ≠ []) (hb : b ≠ []) (hc : c ≠ [])
    (da : ∀ x ∈ a, x.isDigit = true) (db : ∀ x ∈ b, x.isDigit = true)
    (dc : ∀ x ∈ c, x.isDigit = true) :
    findVer3 (a ++ '.' :: b ++ '.' :: c) = some (a ++ '.' :: b ++ '.' :: c) := by
  have hself := matchNum3At_self ha hb hc da db dc
  cases a with
  | nil => exact absurd rfl ha
  | cons x xs =>
    simp only [List.cons_append, List.append_assoc] at hself ⊢
    simp only [findVer3, List.append_eq]
    rw [hself]

theorem findVer3_shape {l m : List Char} (h : findVer3 l = some m) :
    ∃ a b c : List Char,
      a ≠ [] ∧ b ≠ [] ∧ c ≠ [] ∧
      (∀ x ∈ a, x.isDigit = true) ∧ (∀ x ∈ b, x.isDigit = true) ∧
      (∀ x ∈ c, x.isDigit = true) ∧ m = a ++ '.' :: b ++ '.' :: c := by
  induction l with
  | nil => simp [findVer3] at h
  | cons x xs ih =>
    simp only [findVer3] at h
    cases hm : matchNum3At (x :: xs) with
    | some m2 =>
      rw [hm] at h
      simp only [Option.some.injEq] at h
      subst h
      exact matchNum3At_shape hm
    | none =>
      rw [hm] at h
      exact ih h

theorem findVer3_self {l m : List Char} (h : findVer3 l = some m) : findVer3 m = some m := by
  obtain ⟨a, b, c, ha, hb, hc, da, db, dc, rfl⟩ := findVer3_shape h
  exact findVer3_exact ha hb hc da db dc

theorem matchNum2At_shape {l m : List Char} (h : matchNum2At l = some m) :
    ∃ a b : List Char,
      a ≠ [] ∧ b ≠ [] ∧ (∀ x ∈ a, x.isDigit = true) ∧ (∀ x ∈ b, x.isDigit = true) ∧
      (m = a ++ '.' :: b ∨
        ∃ c : List Char, c ≠ [] ∧ (∀ x ∈ c, x.isDigit = true) ∧
          m = a ++ '.' :: b ++ '.' :: c) := by
  simp only [matchNum2At] at h
  by_cases h1 : (l.takeWhile Char.isDigit).isEmpty
  · simp [h1] at h
  · rw [if_neg h1] at h
    by_cases h2 : (l.dropWhile Char.isDigit).head? = some '.'
    · rw [if_pos h2] at h
      by_cases h3 : ((l.dropWhile Char.isDigit).tail.takeWhile Char.isDigit).isEmpty
      · simp [h3] at h
      · rw [if_neg h3] at h
        by_cases h4 : ((l.dropWhile Char.isDigit).tail.dropWhile Char.isDigit).head? = some '.'
        · rw [if_pos h4] at h
          by_cases h5 :
            (((l.dropWhile Char.isDigit).tail.dropWhile Char.isDigit).tail.takeWhile
              Char.isDigit).isEmpty
          · rw [if_pos h5] at h
            simp only [Option.some.injEq] at h
            exact ⟨_, _, by simpa using h1, by simpa using h3,
              fun x hx => List.mem_takeWhile_imp hx, fun x hx => List.mem_takeWhile_imp hx,
              Or.inl h.symm⟩
          · rw [if_neg h5] at h
            simp only [Option.some.injEq] at h
            exact ⟨_, _, by simpa using h1, by simpa using h3,
              fun x hx => List.mem_takeWhile_imp hx, fun x hx => List.mem_takeWhile_imp hx,
              Or.inr ⟨_, by simpa using h5, fun x hx => List.mem_takeWhile_imp hx, h.symm⟩⟩
        · rw [if_neg h4] at h
          simp only [Option.some.injEq] at h
          exact ⟨_, _, by simpa using h1, by simpa using h3,
            fun x hx => List.mem_takeWhile_imp hx, fun x hx => List.mem_takeWhile_imp hx,
            Or.inl h.symm⟩
    · simp [h2] at h

theorem matchNum2At_self_two {a b : List Char}
    (ha : a ≠ []) (hb : b ≠ [])
    (da : ∀ x ∈ a, x.isDigit = true) (db : ∀ x ∈ b, x.isDigit = true) :
    matchNum2At (a ++ '.' :: b) = some (a ++ '.' :: b) := by
  have hdotb : ∀ x ∈ (('.' :: b) : List Char).head?, Char.isDigit x = false := by simp
  have hdw : b.dropWhile Char.isDigit = [] := by
    have hsplit := List.takeWhile_append_dropWhile (p := Char.isDigit) (l := b)
    rw [List.takeWhile_eq_self_iff.mpr db] at hsplit
    simpa using hsplit
  simp only [matchNum2At]
  rw [takeWhile_token da hdotb, dropWhile_token da hdotb]
  simp only [List.head?_cons, List.tail_cons]
  rw [List.takeWhile_eq_self_iff.mpr db, hdw]
  simp [ha, hb]

theorem matchNum2At_self_three {a b c : List Char}
    (ha : a ≠ []) (hb : b ≠ []) (hc : c ≠ [])
    (da : ∀ x ∈ a, x.isDigit = true) (db : ∀ x ∈ b, x.isDigit = true)
    (dc : ∀ x ∈ c, x.isDigit = true) :
    matchNum2At (a ++ '.' :: b ++ '.' :: c) = some (a ++ '.' :: b ++ '.' :: c) := by
  have hdotb : ∀ x ∈ (('.' :: (b ++ '.' :: c)) : List Char).head?, Char.isDigit x = false := by
    simp
  have hdotc : ∀ x ∈ (('.' :: c) : List Char).head?, Char.isDigit x = false := by simp
  have e0 : a ++ '.' :: b ++ '.' :: c = a ++ ('.' :: (b ++ '.' :: c)) := by simp
  simp only [matchNum2At]
  rw [e0, takeWhile_token da hdotb, dropWhile_token da hdotb]
  simp only [List.head?_cons, List.tail_cons]
  rw [takeWhile_token db hdotc, dropWhile_token db hdotc]
  simp only [List.head?_cons, List.tail_cons]
  rw [List.takeWhile_eq_self_iff.mpr dc]
  simp [ha, hb, hc]

theorem findVer2_shape {l m : List Char} (h : findVer2 l = some m) :
    ∃ a b : List Char,
      a ≠ [] ∧ b ≠ [] ∧ (∀ x ∈ a, x.isDigit = true) ∧ (∀ x ∈ b, x.isDigit = true) ∧
      (m = a ++ '.' :: b ∨
        ∃ c : List Char, c ≠ [] ∧ (∀ x ∈ c, x.isDigit = true) ∧
          m = a ++ '.' :: b ++ '.' :: c) := by
  induction l with
  | nil => simp [findVer2] at h
  | cons x xs ih =>
    simp only [findVer2] at h
    cases hm : matchNum2At (x :: xs) with
    | some m2 =>
      rw [hm] at h
      simp only [Option.some.injEq] at h
      subst h
      exact matchNum2At_shape hm
    | none =>
      rw [hm] at h
      exact ih h

theorem findVer2_self {l m : List Char} (h : findVer2 l = some m) : findVer2 m = some m := by
  obtain ⟨a, b, ha, hb, da, db, hm⟩ := findVer2_shape h
  cases hm with
  | inl hm =>
    subst hm
    have hself := matchNum2At_self_two ha hb da db
    cases a with
    | nil => exact absurd rfl ha
    | cons x xs =>
      simp only [List.cons_append, List.append_assoc] at hself ⊢
      simp only [findVer2, List.append_eq]
      rw [hself]
  | inr hm =>
    obtain ⟨c, hc, dc, rfl⟩ := hm
    have hself := matchNum2At_self_three ha hb hc da db dc
    cases a with
    | nil => exact absurd rfl ha
    | cons x xs =>
      simp only [List.cons_append, List.append_assoc] at hself ⊢
      simp only [findVer2, List.append_eq]
      rw [hself]

/-! Normalization-core lemmas and the claims about version normalization. -/

theorem findVer3_cons_notdigit {op : Char} (hop : op.isDigit = false) (rest : List Char) :
    findVer3 (op :: rest) = findVer3 rest := by
  simp only [findVer3]
  have hnone : matchNum3At (op :: rest) = none := by
    simp only [matchNum3At]
    rw [List.takeWhile_cons_of_neg (by simp [hop])]
    simp
  rw [hnone]

theorem findVer2_cons_notdigit {op : Char} (hop : op.isDigit = false) (rest : List Char) :
    findVer2 (op :: rest) = findVer2 rest := by
  simp only [findVer2]
  have hnone : matchNum2At (op :: rest) = none := by
    simp only [matchNum2At]
    rw [List.takeWhile_cons_of_neg (by simp [hop])]
    simp
  rw [hnone]

theorem findVer2_exact3 {a b c : List Char}
    (ha : a ≠ []) (hb : b ≠ []) (hc : c ≠ [])
    (da : ∀ x ∈ a, x.isDigit = true) (db : ∀ x ∈ b, x.isDigit = true)
    (dc : ∀ x ∈ c, x.isDigit = true) :
    findVer2 (a ++ '.' :: b ++ '.' :: c) = some (a ++ '.' :: b ++ '.' :: c) := by
  have hself := matchNum2At_self_three ha hb hc da db dc
  cases a with
  | nil => exact absurd rfl ha
  | cons x xs =>
    simp only [List.cons_append, List.append_assoc] at hself ⊢
    simp only [findVer2, List.append_eq]
    rw [hself]

theorem pyNormCoreL_idem (l : List Char) : pyNormCoreL (pyNormCoreL l) = pyNormCoreL l := by
  cases h : findVer2 l with
  | some m =>
    have e1 : pyNormCoreL l = m := by simp only [pyNormCoreL, h]
    rw [e1]
    simp only [pyNormCoreL, findVer2_self h]
  | none =>
    have e1 : pyNormCoreL l = l := by simp only [pyNormCoreL, h]
    rw [e1, e1]

theorem jsNormCoreL_third (l : List Char) :
    jsNormCoreL (jsNormCoreL (jsNormCoreL l)) = jsNormCoreL (jsNormCoreL l) := by
  cases h : findVer3 l with
  | some m =>
    have e1 : jsNormCoreL l = m := by simp only [jsNormCoreL, h]
    have e2 : jsNormCoreL m = m := by simp only [jsNormCoreL, findVer3_self h]
    rw [e1, e2, e2]
  | none =>
    have e1 : jsNormCoreL l = trimL (stripRangeL l) := by simp only [jsNormCoreL, h]
    cases h2 : findVer3 (trimL (stripRangeL l)) with
    | some m2 =>
      have e2 : jsNormCoreL (trimL (stripRangeL l)) = m2 := by simp only [jsNormCoreL, h2]
      have e3 : jsNormCoreL m2 = m2 := by simp only [jsNormCoreL, findVer3_self h2]
      rw [e1, e2, e3]
    | none =>
      have hstrip : stripRangeL (trimL (stripRangeL l)) = trimL (stripRangeL l) := by
        unfold stripRangeL
        apply List.filter_eq_self.mpr
        intro x hx
        have hx2 : x ∈ List.filter (fun c => !isRangeChar c) l := mem_trimL hx
        have hx3 := List.of_mem_filter hx2
        simpa using hx3
      have e2 : jsNormCoreL (trimL (stripRangeL l)) = trimL (stripRangeL l) := by
        simp only [jsNormCoreL, h2]
        rw [hstrip, trimL_idem]
      rw [e1, e2, e2]

/-- C5 counterexample: the JavaScript version normalization is not
idempotent. On "1.>2.3x" the first pass finds no MAJOR.MINOR.PATCH token and
strips the ">" to produce "1.2.3x", in which a second pass then finds
"1.2.3". -/
theorem C5_counterexample :
    jsNormCore (jsNormCore "1.>2.3x") ≠ jsNormCore "1.>2.3x" := by decide

/-- C5 (amended): the Python version normalization core is idempotent, and
the JavaScript one stabilizes after two applications (a third application
changes nothing) — but, per `C5_counterexample`, a single application of the
JavaScript normalization need not be a fixed point. -/
theorem C5_amended :
    (∀ v : String, pyNormCore (pyNormCore v) = pyNormCore v) ∧
    (∀ v : String, jsNormCore (jsNormCore (jsNormCore v)) = jsNormCore (jsNormCore v)) := by
  constructor
  · intro v
    exact congrArg String.mk (pyNormCoreL_idem v.data)
  · intro v
    exact congrArg String.mk (jsNormCoreL_third v.data)

/-- C4 counterexample: for the wildcard version "*" the JavaScript `ver`
reports the literal wildcard token, not "unknown": the framework detector on
a dependency map with react at version "*" reports version "*". -/
theorem C4_counterexample :
    detectFramework [("react", "*")] [] ⟨false, false, [], []⟩ =
      some ⟨"react", "*", none⟩ ∧
    jsVer "react" [("react", "*")] [] = some "*" := by decide

/-- C4 (amended): a caret/tilde range around a MAJOR.MINOR.PATCH token
normalizes to that token under both the JavaScript and the Python
normalizers; for the wildcard sentinel "*" the Python `ver` yields null
(reported as "unknown" by its callers), while the JavaScript `ver` yields
the literal "*". -/
theorem C4_amended :
    (∀ (op : Char) (a b c : List Char), (op = '^' ∨ op = '~') →
      a ≠ [] → b ≠ [] → c ≠ [] →
      (∀ x ∈ a, x.isDigit = true) → (∀ x ∈ b, x.isDigit = true) →
      (∀ x ∈ c, x.isDigit = true) →
      jsNormCore ⟨op :: (a ++ '.' :: b ++ '.' :: c)⟩ = ⟨a ++ '.' :: b ++ '.' :: c⟩ ∧
      pyNormCore ⟨op :: (a ++ '.' :: b ++ '.' :: c)⟩ = ⟨a ++ '.' :: b ++ '.' :: c⟩) ∧
    (∀ nm deps devDeps, lookup2 nm deps devDeps = some "*" →
      pyVer nm deps devDeps = none ∧ jsVer nm deps devDeps = some "*") := by
  constructor
  · intro op a b c hop ha hb hc da db dc
    have hopd : op.isDigit = false := by rcases hop with rfl | rfl <;> decide
    constructor
    · have h3 : findVer3 (op :: (a ++ '.' :: b ++ '.' :: c)) =
          some (a ++ '.' :: b ++ '.' :: c) := by
        rw [findVer3_cons_notdigit hopd]
        exact findVer3_exact ha hb hc da db dc
      exact congrArg String.mk (by simp only [jsNormCoreL, h3])
    · have h2 : findVer2 (op :: (a ++ '.' :: b ++ '.' :: c)) =
          some (a ++ '.' :: b ++ '.' :: c) := by
        rw [findVer2_cons_notdigit hopd]
        exact findVer2_exact3 ha hb hc da db dc
      exact congrArg String.mk (by simp only [pyNormCoreL, h2])
  · intro nm deps devDeps h
    constructor
    · simp only [pyVer, h]
      decide
    · simp only [jsVer, h]
      decide

/-- C4 witness: concrete instances of `C4_amended`. -/
theorem C4_witness :
    jsNormCore "^2.3.1" = "2.3.1" ∧ pyNormCore "~2.3.1" = "2.3.1" ∧
    pyVer "react" [("react", "*")] [] = none ∧ jsVer "react" [("react", "*")] [] = some "*" := by
  refine ⟨?_, ?_, ?_, ?_⟩
  · exact (C4_amended.1 '^' ['2'] ['3'] ['1'] (Or.inl rfl) (by decide) (by decide) (by decide)
      (by decide) (by decide) (by decide)).1
  · exact (C4_amended.1 '~' ['2'] ['3'] ['1'] (Or.inr rfl) (by decide) (by decide) (by decide)
      (by decide) (by decide) (by decide)).2
  · exact (C4_amended.2 "react" [("react", "*")] [] (by decide)).1
  · exact (C4_amended.2 "react" [("react", "*")] [] (by decide)).2

/-! Claims about the ecosystem detector and the adapter registry. -/

theorem fileCheckResult_fields {entries : List String} {c : ManifestCheck} {f : String}
    {d : EcosystemDetection} (h : fileCheckResult entries c f = some d) :
    d.ecosystem = c.ecosystem ∧ d.confidence = c.confidence := by
  unfold fileCheckResult at h
  split at h
  · split at h
    · exact absurd h (by simp)
    · simp only [Option.some.injEq] at h
      subst h
      exact ⟨rfl, rfl⟩
  · split at h
    · simp only [Option.some.injEq] at h
      subst h
      exact ⟨rfl, rfl⟩
    · exact absurd h (by simp)

theorem checkTuple_fields {entries : List String} {c : ManifestCheck} {d : EcosystemDetection}
    (h : checkTuple entries c = some d) :
    d.ecosystem = c.ecosystem ∧ d.confidence = c.confidence := by
  suffices haux : ∀ fs, checkTuple.checkFiles entries c fs = some d →
      d.ecosystem = c.ecosystem ∧ d.confidence = c.confidence from haux c.files h
  intro fs
  induction fs with
  | nil => intro h2; simp [checkTuple.checkFiles] at h2
  | cons f fs ih =>
    intro h2
    simp only [checkTuple.checkFiles] at h2
    cases hf : fileCheckResult entries c f with
    | some d2 =>
      rw [hf] at h2
      simp only [Option.some.injEq] at h2
      subst h2
      exact fileCheckResult_fields hf
    | none =>
      rw [hf] at h2
      exact ih h2

theorem scanChecks_first {entries : List String} :
    ∀ (cs : List ManifestCheck) (i : Nat) (hi : i < cs.length),
      (checkTuple entries (cs.get ⟨i, hi⟩)).isSome →
      (∀ j (hj : j < i), checkTuple entries (cs.get ⟨j, Nat.lt_trans hj hi⟩) = none) →
      scanChecks entries cs = checkTuple entries (cs.get ⟨i, hi⟩) := by
  intro cs
  induction cs with
  | nil => intro i hi; exact absurd hi (by simp)
  | cons c rest ih =>
    intro i hi hsome hprev
    cases i with
    | zero =>
      simp only [List.get] at hsome ⊢
      simp only [scanChecks]
      cases h : checkTuple entries c with
      | some d => rfl
      | none => rw [h] at hsome; simp at hsome
    | succ i2 =>
      have h0 : checkTuple entries c = none := by
        have := hprev 0 (Nat.succ_pos i2)
        simpa using this
      have hi2 : i2 < rest.length := by simpa using hi
      have hprev2 : ∀ j (hj : j < i2),
          checkTuple entries (rest.get ⟨j, Nat.lt_trans hj hi2⟩) = none := by
        intro j hj
        have := hprev (j + 1) (Nat.succ_lt_succ hj)
        simpa using this
      have hrec := ih i2 hi2 (by simpa using hsome) hprev2
      simp only [scanChecks, h0]
      simpa using hrec

/-- C2: `detectEcosystem` returns the ecosystem and confidence of the first
tuple of `MANIFEST_CHECKS` that has at least one existing candidate file, and
no lower-priority tuple is consulted; in particular, with manifest files of
two ecosystems coexisting at the root, the first-listed tuple wins. -/
theorem C2_theorem (entries : List String) (i : Nat) (hi : i < MANIFEST_CHECKS.length)
    (hsome : (checkTuple entries (MANIFEST_CHECKS.get ⟨i, hi⟩)).isSome)
    (hprev : ∀ j (hj : j < i),
      checkTuple entries (MANIFEST_CHECKS.get ⟨j, Nat.lt_trans hj hi⟩) = none) :
    ∃ d, detectEcosystem entries = some d ∧
      d.ecosystem = (MANIFEST_CHECKS.get ⟨i, hi⟩).ecosystem ∧
      d.confidence = (MANIFEST_CHECKS.get ⟨i, hi⟩).confidence := by
  have hscan := scanChecks_first MANIFEST_CHECKS i hi hsome hprev
  obtain ⟨d, hd⟩ := Option.isSome_iff_exists.mp hsome
  have hfields := checkTuple_fields hd
  refine ⟨d, ?_, hfields.1, hfields.2⟩
  rw [detectEcosystem, hscan, hd]

/-- C2 witness: a root containing both package.json and go.mod is detected
as javascript with high confidence (the javascript tuple is listed first). -/
theorem C2_witness :
    ∃ d, detectEcosystem ["go.mod", "package.json"] = some d ∧
      d.ecosystem = Ecosystem.javascript ∧ d.confidence = Confidence.high := by
  have h := C2_theorem ["go.mod", "package.json"] 0 (by decide) (by decide)
    (fun j hj => absurd hj (by omega))
  exact h

/-- C7: the adapter registry fails for ruby with an error message containing
the detected ecosystem name, and returns an adapter for each of the six
implemented ecosystems. -/
theorem C7_theorem :
    (∃ pre post : String,
      getEcosystemAdapter Ecosystem.ruby =
        Except.error (pre ++ ecosystemName Ecosystem.ruby ++ post)) ∧
    (∃ a, getEcosystemAdapter Ecosystem.javascript = Except.ok a) ∧
    (∃ a, getEcosystemAdapter Ecosystem.python = Except.ok a) ∧
    (∃ a, getEcosystemAdapter Ecosystem.rust = Except.ok a) ∧
    (∃ a, getEcosystemAdapter Ecosystem.go = Except.ok a) ∧
    (∃ a, getEcosystemAdapter Ecosystem.java = Except.ok a) ∧
    (∃ a, getEcosystemAdapter Ecosystem.php = Except.ok a) := by
  refine ⟨⟨"Ecosystem \"",
    "\" is not yet supported. Currently supported: javascript, python, rust, go, java, php",
    ?_⟩, ⟨_, rfl⟩, ⟨_, rfl⟩, ⟨_, rfl⟩, ⟨_, rfl⟩, ⟨_, rfl⟩, ⟨_, rfl⟩⟩
  rfl

/-! Lemmas for the go.mod parser: token lines and the line regexes. -/

theorem string_data_append (s t : String) : (s ++ t).data = s.data ++ t.data := rfl

theorem mem_of_getLast?_eq {l : List Char} {c : Char} (h : l.getLast? = some c) : c ∈ l := by
  rw [← List.head?_reverse] at h
  have hm : c ∈ l.reverse := by
    cases hr : l.reverse with
    | nil => rw [hr] at h; simp at h
    | cons y ys =>
      rw [hr] at h
      simp only [List.head?_cons, Option.some.injEq] at h
      subst h
      exact List.mem_cons_self y ys
  exact List.mem_reverse.mp hm

/-- The head of a nonempty whitespace-free token followed by anything is not
whitespace. -/
theorem head_not_ws {m : List Char} (X : List Char) (hm : m ≠ [])
    (hmw : ∀ ch ∈ m, isNonWs ch = true) :
    ∀ x ∈ (m ++ X).head?, isJsWs x = false := by
  cases m with
  | nil => exact absurd rfl hm
  | cons ch m2 =>
    intro x hx
    have hx' : x = ch := by simpa [eq_comm] using hx
    subst hx'
    have := hmw x (List.mem_cons_self x m2)
    simpa [isNonWs] using this

theorem trimL_eq_self {l : List Char} (hhead : ∀ x ∈ l.head?, isJsWs x = false)
    (hlast : ∀ x ∈ l.getLast?, isJsWs x = false) : trimL l = l := by
  unfold trimL trimLeftL trimRightL
  rw [dropWhile_head_false hhead]
  have hrev : ∀ x ∈ l.reverse.head?, isJsWs x = false := by
    rw [List.head?_reverse]
    exact hlast
  rw [dropWhile_head_false hrev, List.reverse_reverse]

theorem getLast?_line (pre : List Char) {m v : List Char} (hv : v ≠ []) :
    (pre ++ ' ' :: (m ++ ' ' :: v)).getLast? = v.getLast? := by
  rw [List.getLast?_append_of_ne_nil pre (by simp)]
  rw [← List.singleton_append, List.getLast?_append_of_ne_nil [' '] (by simp)]
  rw [List.getLast?_append_of_ne_nil m (by simp)]
  rw [← List.singleton_append, List.getLast?_append_of_ne_nil [' '] hv]

theorem stripWord_append (w rest : List Char) : stripWord w (w ++ rest) = some rest := by
  unfold stripWord
  rw [List.take_left, List.drop_left]
  simp

/-- When a whitespace-free token different from the word starts the line, a
successful `stripWord` leaves a remainder headed by a non-whitespace
character. -/
theorem stripWord_token_rest {w mt X rest : List Char}
    (hw : ∀ ch ∈ w, isNonWs ch = true)
    (hmtnil : mt ≠ []) (hmt : ∀ ch ∈ mt, isNonWs ch = true) (hne : mt ≠ w)
    (h : stripWord w (mt ++ ' ' :: X) = some rest) :
    ∃ d dd, rest = d :: dd ∧ isNonWs d = true := by
  unfold stripWord at h
  split at h
  case isFalse => exact absurd h (by simp)
  case isTrue htake =>
    simp only [Option.some.injEq] at h
    subst h
    rcases Nat.lt_trichotomy mt.length w.length with hlt | heq | hgt
    · exfalso
      rw [List.take_append_eq_append_take, List.take_of_length_le (Nat.le_of_lt hlt)] at htake
      have hpos : 0 < w.length - mt.length := by omega
      obtain ⟨k, hk⟩ : ∃ k, w.length - mt.length = k + 1 :=
        ⟨w.length - mt.length - 1, by omega⟩
      rw [hk, List.take_succ_cons] at htake
      have hsp : ' ' ∈ w := by
        rw [← htake]
        exact List.mem_append_right mt (List.mem_cons_self ' ' (X.take k))
      have := hw ' ' hsp
      simp [isNonWs, isJsWs] at this
    · exfalso
      rw [← heq, List.take_left] at htake
      exact hne htake
    · have hd : mt.drop w.length ≠ [] := by
        rw [Ne, List.drop_eq_nil_iff]
        omega
      rw [List.drop_append_eq_append_drop] at *
      cases hdd : mt.drop w.length with
      | nil => exact absurd hdd hd
      | cons d dd2 =>
        refine ⟨d, dd2 ++ (' ' :: X).drop (w.length - mt.length), by simp [hdd], ?_⟩
        have hdmem : d ∈ mt := List.drop_subset w.length mt (by rw [hdd]; simp)
        exact hmt d hdmem

theorem matchModule_token {mt X : List Char} (hmtnil : mt ≠ [])
    (hmt : ∀ ch ∈ mt, isNonWs ch = true) (hne : mt ≠ "module".data) :
    matchModule (mt ++ ' ' :: X) = none := by
  unfold matchModule
  cases h : stripWord "module".data (mt ++ ' ' :: X) with
  | none => rfl
  | some rest =>
    obtain ⟨d, dd, rfl, hd⟩ := stripWord_token_rest (by decide) hmtnil hmt hne h
    have hdw : isJsWs d = false := by simpa [isNonWs] using hd
    simp [List.takeWhile_cons, hdw]

theorem matchGoVersion_token {mt X : List Char} (hmtnil : mt ≠ [])
    (hmt : ∀ ch ∈ mt, isNonWs ch = true) (hne : mt ≠ "go".data) :
    matchGoVersion (mt ++ ' ' :: X) = none := by
  unfold matchGoVersion
  cases h : stripWord "go".data (mt ++ ' ' :: X) with
  | none => rfl
  | some rest =>
    obtain ⟨d, dd, rfl, hd⟩ := stripWord_token_rest (by decide) hmtnil hmt hne h
    have hdw : isJsWs d = false := by simpa [isNonWs] using hd
    simp [List.takeWhile_cons, hdw]

theorem matchRequireSingle_token {mt X : List Char} (hmtnil : mt ≠ [])
    (hmt : ∀ ch ∈ mt, isNonWs ch = true) (hne : mt ≠ "require".data) :
    matchRequireSingle (mt ++ ' ' :: X) = none := by
  unfold matchRequireSingle
  cases h : stripWord "require".data (mt ++ ' ' :: X) with
  | none => rfl
  | some rest =>
    obtain ⟨d, dd, rfl, hd⟩ := stripWord_token_rest (by decide) hmtnil hmt hne h
    have hdw : isJsWs d = false := by simpa [isNonWs] using hd
    simp [List.takeWhile_cons, hdw]

theorem matchRequireSingle_pos {m v : List Char} (hm : m ≠ [])
    (hmw : ∀ ch ∈ m, isNonWs ch = true) (hv : v ≠ [])
    (hvw : ∀ ch ∈ v, isNonWs ch = true) :
    matchRequireSingle ("require".data ++ ' ' :: (m ++ ' ' :: v)) = some (m, v) := by
  have hmhead : ∀ x ∈ (m ++ ' ' :: v).head?, isJsWs x = false := head_not_ws _ hm hmw
  have hvhead : ∀ x ∈ v.head?, isJsWs x = false := by
    have := head_not_ws [] hv hvw
    simpa using this
  have hspace : ∀ x ∈ (((' ' :: v)) : List Char).head?, isNonWs x = false := by
    simp [isNonWs, isJsWs]
  unfold matchRequireSingle
  simp only [stripWord_append]
  rw [List.takeWhile_cons_of_pos (by decide), takeWhile_head_false hmhead]
  rw [List.dropWhile_cons_of_pos (by decide), dropWhile_head_false hmhead]
  rw [takeWhile_token hmw hspace, dropWhile_token hmw hspace]
  rw [List.takeWhile_cons_of_pos (by decide), takeWhile_head_false hvhead]
  rw [List.dropWhile_cons_of_pos (by decide), dropWhile_head_false hvhead]
  rw [List.takeWhile_eq_self_iff.mpr hvw]
  simp [hm, hv]

theorem matchBlockDep_pos {m v : List Char} (hm : m ≠ [])
    (hmw : ∀ ch ∈ m, isNonWs ch = true) (hv : v ≠ [])
    (hvw : ∀ ch ∈ v, isNonWs ch = true) :
    matchBlockDep (m ++ ' ' :: v) = some (m, v) := by
  have hvhead : ∀ x ∈ v.head?, isJsWs x = false := by
    have := head_not_ws [] hv hvw
    simpa using this
  have hspace : ∀ x ∈ (((' ' :: v)) : List Char).head?, isNonWs x = false := by
    simp [isNonWs, isJsWs]
  unfold matchBlockDep
  rw [takeWhile_token hmw hspace, dropWhile_token hmw hspace]
  dsimp only
  rw [List.takeWhile_cons_of_pos (by decide), takeWhile_head_false hvhead]
  rw [List.dropWhile_cons_of_pos (by decide), dropWhile_head_false hvhead]
  rw [List.takeWhile_eq_self_iff.mpr hvw]
  simp [hm, hv]

theorem matchBlockDep_fst {l t1 t2 : List Char} (h : matchBlockDep l = some (t1, t2)) :
    t1 = l.takeWhile isNonWs := by
  unfold matchBlockDep at h
  dsimp only at h
  split at h
  · exact absurd h (by simp)
  · split at h
    · exact absurd h (by simp)
    · split at h
      · exact absurd h (by simp)
      · simp only [Option.some.injEq, Prod.mk.injEq] at h
        exact h.1.symm

theorem stripWord_none_of_head {w l : List Char} {cw cl : Char}
    (hw : w.head? = some cw) (hl : l.head? = some cl) (hne : cw ≠ cl) :
    stripWord w l = none := by
  unfold stripWord
  rw [if_neg ?_]
  intro htake
  cases w with
  | nil => simp at hw
  | cons w0 ws =>
    cases l with
    | nil => simp at hl
    | cons l0 ls =>
      simp only [List.head?_cons, Option.some.injEq] at hw hl
      subst hw
      subst hl
      rw [List.length_cons, List.take_succ_cons] at htake
      have hinj := (List.cons.injEq _ _ _ _).mp htake
      exact hne hinj.1.symm

theorem splitOnCharL_no_sep {sep : Char} {l : List Char} (h : sep ∉ l) :
    splitOnCharL sep l = [l] := by
  induction l with
  | nil => rfl
  | cons c rest ih =>
    have hc : ¬(c = sep) := fun he => h (he ▸ List.mem_cons_self c rest)
    have hres := ih (fun hmem => h (List.mem_cons_of_mem c hmem))
    simp only [splitOnCharL]
    rw [hres, if_neg hc]

theorem splitOnCharL_append {sep : Char} {a b : List Char} (h : sep ∉ a) :
    splitOnCharL sep (a ++ sep :: b) = a :: splitOnCharL sep b := by
  induction a with
  | nil =>
    simp [splitOnCharL]
  | cons x rest ih =>
    have hx : ¬(x = sep) := fun he => h (he ▸ List.mem_cons_self x rest)
    have hres := ih (fun hmem => h (List.mem_cons_of_mem x hmem))
    simp only [List.cons_append, splitOnCharL, List.append_eq]
    rw [hres, if_neg hx]

/-! Line-by-line evaluation lemmas for `goModLine`. -/

theorem goModLine_requireOpen (st : GoModState) :
    goModLineL st "require (".data = { st with inBlock := true } := by
  simp only [goModLineL]
  rw [show trimL "require (".data = "require (".data from by decide]
  rw [show matchModule "require (".data = none from by decide]
  rw [show matchGoVersion "require (".data = none from by decide]
  rw [if_pos rfl]

theorem goModLine_close (st : GoModState) (hblk : st.inBlock = true) :
    goModLineL st [')'] = { st with inBlock := false } := by
  simp only [goModLineL]
  rw [show trimL [')'] = [')'] from by decide]
  rw [show matchModule [')'] = none from by decide]
  rw [show matchGoVersion [')'] = none from by decide]
  rw [if_neg (by decide)]
  rw [hblk]
  rw [if_pos (by decide)]

theorem goModLine_comment (st : GoModState) {c r : List Char}
    (hc : trimL c = '/' :: '/' :: r) :
    goModLineL st c = st := by
  simp only [goModLineL]
  rw [hc]
  have h1 : matchModule ('/' :: '/' :: r) = none := by
    unfold matchModule
    rw [stripWord_none_of_head (show ("module".data).head? = some 'm' from rfl)
      (show (('/' :: '/' :: r) : List Char).head? = some '/' from rfl) (by decide)]
  have h2 : matchGoVersion ('/' :: '/' :: r) = none := by
    unfold matchGoVersion
    rw [stripWord_none_of_head (show ("go".data).head? = some 'g' from rfl)
      (show (('/' :: '/' :: r) : List Char).head? = some '/' from rfl) (by decide)]
  have h3 : matchRequireSingle ('/' :: '/' :: r) = none := by
    unfold matchRequireSingle
    rw [stripWord_none_of_head (show ("require".data).head? = some 'r' from rfl)
      (show (('/' :: '/' :: r) : List Char).head? = some '/' from rfl) (by decide)]
  have hne1 : ('/' :: '/' :: r) ≠ "require (".data := by
    intro h
    have h0 := congrArg List.head? h
    rw [show ("require (".data).head? = some 'r' from rfl] at h0
    simp only [List.head?_cons, Option.some.injEq] at h0
    exact absurd h0 (by decide)
  have hne2 : ('/' :: '/' :: r) ≠ ")".data := by
    intro h
    have h0 := congrArg List.head? h
    rw [show (")".data).head? = some ')' from rfl] at h0
    simp only [List.head?_cons, Option.some.injEq] at h0
    exact absurd h0 (by decide)
  simp only [h1, h2, h3]
  rw [if_neg hne1]
  rw [if_neg (show ¬((decide (('/' :: '/' :: r) = ")".data) && st.inBlock) = true) from by
    simp [hne2])]
  cases hblk : st.inBlock with
  | false => simp [hblk]
  | true =>
    simp only [hblk, if_true]
    cases hbd : matchBlockDep ('/' :: '/' :: r) with
    | none => simp [hbd]
    | some p =>
      obtain ⟨t1, t2⟩ := p
      have ht1 := matchBlockDep_fst hbd
      rw [List.takeWhile_cons_of_pos (by decide), List.takeWhile_cons_of_pos (by decide)] at ht1
      have hpre : "//".data.isPrefixOf t1 = true := by
        rw [List.isPrefixOf_iff_prefix, ht1]
        exact ⟨List.takeWhile isNonWs r, rfl⟩
      simp [hbd, hpre]

theorem goModLine_depline (st : GoModState) {m v : List Char} (hm : m ≠ [])
    (hmw : ∀ ch ∈ m, isNonWs ch = true) (hv : v ≠ [])
    (hvw : ∀ ch ∈ v, isNonWs ch = true)
    (hmod : m ≠ "module".data) (hgo : m ≠ "go".data) (hreq : m ≠ "require".data)
    (hslash : m.take 2 ≠ ['/', '/'])
    (hblk : st.inBlock = true) :
    goModLineL st (m ++ ' ' :: v) = { st with deps := assocSet st.deps ⟨m⟩ ⟨v⟩ } := by
  simp only [goModLineL]
  have hmhead : ∀ x ∈ (m ++ ' ' :: v).head?, isJsWs x = false := head_not_ws _ hm hmw
  have hlastv : ∀ x ∈ v.getLast?, isJsWs x = false := by
    intro x hx
    have := hvw x (mem_of_getLast?_eq hx)
    simpa [isNonWs] using this
  have hlast : ∀ x ∈ (m ++ ' ' :: v).getLast?, isJsWs x = false := by
    rw [List.getLast?_append_of_ne_nil m (by simp), ← List.singleton_append,
      List.getLast?_append_of_ne_nil [' '] hv]
    exact hlastv
  rw [trimL_eq_self hmhead hlast]
  have hne1 : (m ++ ' ' :: v) ≠ "require (".data := by
    intro h
    have h0 := congrArg (List.takeWhile isNonWs) h
    rw [takeWhile_token hmw (by simp [isNonWs, isJsWs])] at h0
    rw [show List.takeWhile isNonWs ("require (".data) = "require".data from by decide] at h0
    exact hreq h0
  have hne2 : (m ++ ' ' :: v) ≠ ")".data := by
    intro h
    have h0 := congrArg List.length h
    rw [show (")".data).length = 1 from rfl] at h0
    simp only [List.length_append, List.length_cons] at h0
    have hminpos : 0 < m.length := List.length_pos.mpr hm
    omega
  have hpre : "//".data.isPrefixOf m = false := by
    cases hp : "//".data.isPrefixOf m with
    | false => rfl
    | true =>
      exfalso
      obtain ⟨t, ht⟩ := List.isPrefixOf_iff_prefix.mp hp
      apply hslash
      rw [← ht]
      rfl
  simp only [matchModule_token hm hmw hmod, matchGoVersion_token hm hmw hgo,
    matchRequireSingle_token hm hmw hreq]
  rw [if_neg hne1]
  rw [if_neg (show ¬((decide ((m ++ ' ' :: v) = ")".data) && st.inBlock) = true) from by
    simp [hne2])]
  simp only [hblk, if_true, matchBlockDep_pos hm hmw hv hvw, hpre]
  simp

theorem goModLine_single (st : GoModState) {m v : List Char} (hm : m ≠ [])
    (hmw : ∀ ch ∈ m, isNonWs ch = true) (hv : v ≠ [])
    (hvw : ∀ ch ∈ v, isNonWs ch = true) :
    goModLineL st ("require".data ++ ' ' :: (m ++ ' ' :: v)) =
      { st with deps := assocSet st.deps ⟨m⟩ ⟨v⟩ } := by
  simp only [goModLineL]
  have hhead : ∀ x ∈ ("require".data ++ ' ' :: (m ++ ' ' :: v)).head?, isJsWs x = false :=
    head_not_ws _ (by decide) (by decide)
  have hlastv : ∀ x ∈ v.getLast?, isJsWs x = false := by
    intro x hx
    have := hvw x (mem_of_getLast?_eq hx)
    simpa [isNonWs] using this
  have hlast : ∀ x ∈ ("require".data ++ ' ' :: (m ++ ' ' :: v)).getLast?, isJsWs x = false := by
    rw [getLast?_line "require".data hv]
    exact hlastv
  rw [trimL_eq_self hhead hlast]
  have hminpos : 0 < m.length := List.length_pos.mpr hm
  have hvinpos : 0 < v.length := List.length_pos.mpr hv
  have hne1 : ("require".data ++ ' ' :: (m ++ ' ' :: v)) ≠ "require (".data := by
    intro h
    have h0 := congrArg List.length h
    rw [show ("require (".data).length = 9 from rfl] at h0
    simp only [List.length_append, List.length_cons,
      show ("require".data).length = 7 from rfl] at h0
    omega
  have hne2 : ("require".data ++ ' ' :: (m ++ ' ' :: v)) ≠ ")".data := by
    intro h
    have h0 := congrArg List.length h
    rw [show (")".data).length = 1 from rfl] at h0
    simp only [List.length_append, List.length_cons,
      show ("require".data).length = 7 from rfl] at h0
    omega
  have hmm1 : matchModule ("require".data ++ ' ' :: (m ++ ' ' :: v)) = none :=
    matchModule_token (by decide) (by decide) (by decide)
  have hgv1 : matchGoVersion ("require".data ++ ' ' :: (m ++ ' ' :: v)) = none :=
    matchGoVersion_token (by decide) (by decide) (by decide)
  simp only [hmm1, hgv1]
  rw [if_neg hne1]
  rw [if_neg (show ¬((decide (("require".data ++ ' ' :: (m ++ ' ' :: v)) = ")".data) &&
      st.inBlock) = true) from by simp [hne2])]
  simp only [matchRequireSingle_pos hm hmw hv hvw]

/-- C8: a go.mod single-line `require m v` and a parenthesized require block
containing `m v` parse to the same single dependency entry, and a comment
line inside the block contributes nothing. The hypotheses state that `m` is
a plausible module path (nonempty, whitespace-free, not starting with `//`
and not one of the keywords `module`, `go`, `require`), that `v` is a
nonempty whitespace-free version token, and that `c` is a newline-free
comment line. -/
theorem C8_theorem (m v c : String)
    (hm : m.data ≠ []) (hmw : ∀ ch ∈ m.data, isNonWs ch = true)
    (hv : v.data ≠ []) (hvw : ∀ ch ∈ v.data, isNonWs ch = true)
    (hmod : m ≠ "module") (hgo : m ≠ "go") (hreq : m ≠ "require")
    (hslash : m.data.take 2 ≠ ['/', '/'])
    (hcnl : '\n' ∉ c.data) (hcsl : ∃ r, trimL c.data = '/' :: '/' :: r) :
    (parseGoMod ("require " ++ m ++ " " ++ v)).deps = [(m, v)] ∧
    (parseGoMod ("require (\n" ++ c ++ "\n" ++ m ++ " " ++ v ++ "\n)")).deps = [(m, v)] := by
  have hmod2 : m.data ≠ "module".data := fun h => hmod (String.ext h)
  have hgo2 : m.data ≠ "go".data := fun h => hgo (String.ext h)
  have hreq2 : m.data ≠ "require".data := fun h => hreq (String.ext h)
  have hnlm : '\n' ∉ m.data := by
    intro hmem
    have := hmw '\n' hmem
    exact absurd this (by decide)
  have hnlv : '\n' ∉ v.data := by
    intro hmem
    have := hvw '\n' hmem
    exact absurd this (by decide)
  obtain ⟨r, hr⟩ := hcsl
  constructor
  · have hdata : ("require " ++ m ++ " " ++ v).data =
        "require".data ++ ' ' :: (m.data ++ ' ' :: v.data) := by
      simp [string_data_append]
    unfold parseGoMod
    rw [hdata]
    have hnl : '\n' ∉ "require".data ++ ' ' :: (m.data ++ ' ' :: v.data) := by
      intro hmem
      rcases List.mem_append.mp hmem with h1 | h2
      · exact absurd h1 (by decide)
      · rcases List.mem_cons.mp h2 with h3 | h4
        · exact absurd h3 (by decide)
        · rcases List.mem_append.mp h4 with h5 | h6
          · exact hnlm h5
          · rcases List.mem_cons.mp h6 with h7 | h8
            · exact absurd h7 (by decide)
            · exact hnlv h8
    rw [splitOnCharL_no_sep hnl]
    show (goModLineL ⟨"unknown", "", false, []⟩
      ("require".data ++ ' ' :: (m.data ++ ' ' :: v.data))).deps = [(m, v)]
    rw [goModLine_single _ hm hmw hv hvw]
    rfl
  · have hdata : ("require (\n" ++ c ++ "\n" ++ m ++ " " ++ v ++ "\n)").data =
        "require (".data ++ '\n' ::
          (c.data ++ '\n' :: ((m.data ++ ' ' :: v.data) ++ '\n' :: [')'])) := by
      simp [string_data_append]
    unfold parseGoMod
    rw [hdata]
    rw [splitOnCharL_append (by decide)]
    have hnomv : '\n' ∉ m.data ++ ' ' :: v.data := by
      intro hmem
      rcases List.mem_append.mp hmem with h1 | h2
      · exact hnlm h1
      · rcases List.mem_cons.mp h2 with h3 | h4
        · exact absurd h3 (by decide)
        · exact hnlv h4
    rw [splitOnCharL_append hcnl]
    rw [splitOnCharL_append hnomv]
    rw [splitOnCharL_no_sep (by decide)]
    show (goModLineL (goModLineL (goModLineL (goModLineL ⟨"unknown", "", false, []⟩
      "require (".data) c.data) (m.data ++ ' ' :: v.data)) [')']).deps = [(m, v)]
    rw [goModLine_requireOpen]
    rw [goModLine_comment _ hr]
    rw [goModLine_depline _ hm hmw hv hvw hmod2 hgo2 hreq2 hslash rfl]
    rw [goModLine_close _ rfl]
    rfl

/-- C8 witness: `C8_theorem` instantiated at a concrete module path, version
and comment. -/
theorem C8_witness :
    (parseGoMod ("require " ++ "github.com/stretchr/testify" ++ " " ++ "v1.8.0")).deps =
      [("github.com/stretchr/testify", "v1.8.0")] ∧
    (parseGoMod ("require (\n" ++ "// indirect" ++ "\n" ++ "github.com/stretchr/testify" ++
        " " ++ "v1.8.0" ++ "\n)")).deps = [("github.com/stretchr/testify", "v1.8.0")] := by
  exact C8_theorem "github.com/stretchr/testify" "v1.8.0" "// indirect"
    (by decide) (by decide) (by decide) (by decide) (by decide) (by decide) (by decide)
    (by decide) (by decide) ⟨" indirect".data, by decide⟩

/-! Lemmas for the PhpAdapter require splitting. -/

theorem lookup_cons_ite {α : Type} (k a : String) (b : α) (t : List (String × α)) :
    ((a, b) :: t).lookup k = if k = a then some b else t.lookup k := by
  rw [List.lookup_cons]
  by_cases h : k = a
  · subst h
    simp
  · have hne : (k == a) = false := by simpa using h
    simp [hne, h]

theorem lookup_map_replace {k v k2 : String} : ∀ {l : List (String × String)},
    (l.map (fun kv => if kv.1 = k then (k, v) else kv)).lookup k2 =
      if k2 = k then (if (l.lookup k).isSome then some v else none) else l.lookup k2 := by
  intro l
  induction l with
  | nil => by_cases h : k2 = k <;> simp [h]
  | cons p t ih =>
    obtain ⟨a, b⟩ := p
    by_cases hak : a = k
    · have hmap : (((a, b) :: t).map (fun kv => if kv.1 = k then (k, v) else kv)) =
          (k, v) :: t.map (fun kv => if kv.1 = k then (k, v) else kv) := by
        simp [hak]
      by_cases hk2 : k2 = a
      · have hk2k : k2 = k := hk2.trans hak
        rw [hmap, lookup_cons_ite, if_pos hk2k, if_pos hk2k]
        have hlk : (((a, b) :: t) : List (String × String)).lookup k = some b := by
          rw [lookup_cons_ite, if_pos hak.symm]
        rw [hlk]
        simp
      · have hk2k : ¬(k2 = k) := fun h => hk2 (h.trans hak.symm)
        rw [hmap, lookup_cons_ite, if_neg hk2k, ih, if_neg hk2k, if_neg hk2k]
        rw [lookup_cons_ite, if_neg hk2]
    · have hmap : (((a, b) :: t).map (fun kv => if kv.1 = k then (k, v) else kv)) =
          (a, b) :: t.map (fun kv => if kv.1 = k then (k, v) else kv) := by
        simp [hak]
      by_cases hk2 : k2 = a
      · have hk2k : ¬(k2 = k) := fun h => hak (hk2.symm.trans h)
        rw [hmap, lookup_cons_ite, if_pos hk2, if_neg hk2k]
        rw [lookup_cons_ite, if_pos hk2]
      · rw [hmap, lookup_cons_ite, if_neg hk2, ih]
        have hklk : (((a, b) :: t) : List (String × String)).lookup k = t.lookup k := by
          rw [lookup_cons_ite, if_neg (fun h => hak h.symm)]
        have hklk2 : (((a, b) :: t) : List (String × String)).lookup k2 = t.lookup k2 := by
          rw [lookup_cons_ite, if_neg hk2]
        rw [hklk, hklk2]

theorem assocSet_lookup_self (l : List (String × String)) (k v : String) :
    (assocSet l k v).lookup k = some v := by
  unfold assocSet
  split
  · rw [lookup_map_replace, if_pos rfl]
    simp [*]
  · rename_i hns
    rw [List.lookup_append]
    have hnone : l.lookup k = none := by
      cases h : l.lookup k with
      | none => rfl
      | some x => rw [h] at hns; simp at hns
    rw [hnone]
    simp [lookup_cons_ite]

theorem assocSet_lookup_ne (l : List (String × String)) (k v k2 : String) (h : k2 ≠ k) :
    (assocSet l k v).lookup k2 = l.lookup k2 := by
  unfold assocSet
  split
  · rw [lookup_map_replace, if_neg h]
  · rw [List.lookup_append]
    have h2 : ([(k, v)] : List (String × String)).lookup k2 = none := by
      rw [lookup_cons_ite, if_neg h]
      rfl
    rw [h2]
    cases l.lookup k2 <;> rfl

/-- Keys routed to the engines map by the composer require loop. -/
def engKeyB (k : String) : Bool :=
  k == "php" || ("ext-".data.isPrefixOf k.data && PHP_NOTABLE.contains k)

/-- Keys routed to the dependency map by the composer require loop. -/
def depKeyB (k : String) : Bool :=
  !(k == "php") && !("ext-".data.isPrefixOf k.data)

theorem phpFold_lookup : ∀ (req : List (String × String)) (e d : List (String × String)),
    (req.map Prod.fst).Nodup → ∀ k : String,
    ((req.foldl phpStep (e, d)).1.lookup k =
      if engKeyB k = true ∧ (req.lookup k).isSome = true then req.lookup k else e.lookup k) ∧
    ((req.foldl phpStep (e, d)).2.lookup k =
      if depKeyB k = true ∧ (req.lookup k).isSome = true then req.lookup k else d.lookup k) := by
  intro req
  induction req with
  | nil =>
    intro e d hnd k
    simp
  | cons p t ih =>
    obtain ⟨n, w⟩ := p
    intro e d hnd k
    simp only [List.map_cons] at hnd
    have hnd2 := List.nodup_cons.mp hnd
    have hstep : phpStep (e, d) (n, w) =
        (if engKeyB n then assocSet e n w else e,
         if depKeyB n then assocSet d n w else d) := by
      by_cases h1 : n = "php"
      · subst h1
        rw [show engKeyB "php" = true from by decide,
          show depKeyB "php" = false from by decide]
        simp [phpStep]
      · cases h2 : "ext-".data.isPrefixOf n.data with
        | true =>
          cases h3 : PHP_NOTABLE.contains n with
          | true =>
            have h3m : n ∈ PHP_NOTABLE := List.elem_iff.mp h3
            have he : engKeyB n = true := by simp [engKeyB, h2, h3m]
            have hd : depKeyB n = false := by simp [depKeyB, h2]
            simp only [phpStep]
            rw [if_neg h1, if_pos h2, if_pos h3, he, hd]
            simp
          | false =>
            have h3m : n ∉ PHP_NOTABLE := by
              intro hm
              have hc : PHP_NOTABLE.contains n = true := List.elem_iff.mpr hm
              rw [hc] at h3
              exact Bool.noConfusion h3
            have he : engKeyB n = false := by simp [engKeyB, h1, h2, h3m]
            have hd : depKeyB n = false := by simp [depKeyB, h2]
            simp only [phpStep]
            rw [if_neg h1, if_pos h2, if_neg (by rw [h3]; simp), he, hd]
            simp
        | false =>
          have he : engKeyB n = false := by simp [engKeyB, h1, h2]
          have hd : depKeyB n = true := by simp [depKeyB, h1, h2]
          simp only [phpStep]
          rw [if_neg h1, if_neg (by simp [h2]), he, hd]
          simp
    rw [List.foldl_cons, hstep]
    have ihk := ih (if engKeyB n then assocSet e n w else e)
      (if depKeyB n then assocSet d n w else d) hnd2.2 k
    by_cases hk : k = n
    · subst hk
      have htl : t.lookup k = none := by
        rw [List.lookup_eq_none_iff]
        intro q hq
        have hq1 : q.1 ∈ t.map Prod.fst := List.mem_map_of_mem Prod.fst hq
        by_contra hbe
        have hbe2 : k = q.1 := by simpa using hbe
        exact hnd2.1 (hbe2 ▸ hq1)
      have hreqk : (((k, w) :: t) : List (String × String)).lookup k = some w :=
        List.lookup_cons_self
      rw [hreqk]
      constructor
      · rw [ihk.1, htl]
        simp only [Option.isSome_none, Bool.false_eq_true, and_false, if_false]
        cases hek : engKeyB k with
        | true => simp [assocSet_lookup_self]
        | false => simp
      · rw [ihk.2, htl]
        simp only [Option.isSome_none, Bool.false_eq_true, and_false, if_false]
        cases hdk : depKeyB k with
        | true => simp [assocSet_lookup_self]
        | false => simp
    · have hreqk : (((n, w) :: t) : List (String × String)).lookup k = t.lookup k := by
        rw [lookup_cons_ite, if_neg hk]
      rw [hreqk]
      constructor
      · rw [ihk.1]
        have he2 : (if engKeyB n = true then assocSet e n w else e).lookup k = e.lookup k := by
          cases hen : engKeyB n with
          | true => simp [assocSet_lookup_ne e n w k hk]
          | false => simp
        rw [he2]
      · rw [ihk.2]
        have hd2 : (if depKeyB n = true then assocSet d n w else d).lookup k = d.lookup k := by
          cases hdn : depKeyB n with
          | true => simp [assocSet_lookup_ne d n w k hk]
          | false => simp
        rw [hd2]

/-- C9: for a composer `require` object with distinct keys, the reserved key
"php" lands in the engines map and never in the dependency map; keys with
the `ext-` prefix never land in the dependency map — they are dropped
entirely unless listed as notable extensions, in which case they are kept in
the engines map. -/
theorem C9_theorem (req : List (String × String)) (hnd : (req.map Prod.fst).Nodup) :
    (∀ cst, req.lookup "php" = some cst →
      (phpSplitRequire req).1.lookup "php" = some cst) ∧
    ((phpSplitRequire req).2.lookup "php" = none) ∧
    (∀ k, "ext-".data.isPrefixOf k.data = true →
      (phpSplitRequire req).2.lookup k = none) ∧
    (∀ k cst, "ext-".data.isPrefixOf k.data = true → k ∈ PHP_NOTABLE →
      req.lookup k = some cst → (phpSplitRequire req).1.lookup k = some cst) ∧
    (∀ k, "ext-".data.isPrefixOf k.data = true → k ∉ PHP_NOTABLE →
      (phpSplitRequire req).1.lookup k = none ∧ (phpSplitRequire req).2.lookup k = none) := by
  refine ⟨?_, ?_, ?_, ?_, ?_⟩
  · intro cst hc
    have h := (phpFold_lookup req [] [] hnd "php").1
    rw [hc] at h
    rw [show phpSplitRequire req = req.foldl phpStep ([], []) from rfl, h,
      if_pos ⟨by decide, rfl⟩]
  · have h := (phpFold_lookup req [] [] hnd "php").2
    rw [show phpSplitRequire req = req.foldl phpStep ([], []) from rfl, h,
      if_neg (by simp [depKeyB])]
    rfl
  · intro k hpre
    have h := (phpFold_lookup req [] [] hnd k).2
    have hdk : depKeyB k = false := by simp [depKeyB, hpre]
    rw [show phpSplitRequire req = req.foldl phpStep ([], []) from rfl, h,
      if_neg (by simp [hdk])]
    rfl
  · intro k cst hpre hnot hc
    have h := (phpFold_lookup req [] [] hnd k).1
    have hek : engKeyB k = true := by
      simp only [engKeyB]
      simp [hpre]
      exact Or.inr hnot
    rw [hc] at h
    rw [show phpSplitRequire req = req.foldl phpStep ([], []) from rfl, h,
      if_pos ⟨hek, rfl⟩]
  · intro k hpre hnot
    have hkphp : k ≠ "php" := by
      intro hk
      rw [hk] at hpre
      exact absurd hpre (by decide)
    have hek : engKeyB k = false := by
      have hkb : (k == "php") = false := by simpa using hkphp
      simp only [engKeyB]
      simp [hkb]
      intro _
      exact hnot
    have hdk : depKeyB k = false := by simp [depKeyB, hpre]
    have h1 := (phpFold_lookup req [] [] hnd k).1
    have h2 := (phpFold_lookup req [] [] hnd k).2
    constructor
    · rw [show phpSplitRequire req = req.foldl phpStep ([], []) from rfl, h1,
        if_neg (by simp [hek])]
      rfl
    · rw [show phpSplitRequire req = req.foldl phpStep ([], []) from rfl, h2,
        if_neg (by simp [hdk])]
      rfl

/-- C9 witness: `C9_theorem` instantiated at a concrete composer require
object. -/
theorem C9_witness :
    (phpSplitRequire [("php", "^8.1"), ("ext-redis", "*"), ("ext-json", "*"),
      ("laravel/framework", "^10.0")]).1.lookup "php" = some "^8.1" ∧
    (phpSplitRequire [("php", "^8.1"), ("ext-redis", "*"), ("ext-json", "*"),
      ("laravel/framework", "^10.0")]).1.lookup "ext-redis" = some "*" ∧
    (phpSplitRequire [("php", "^8.1"), ("ext-redis", "*"), ("ext-json", "*"),
      ("laravel/framework", "^10.0")]).1.lookup "ext-json" = none ∧
    (phpSplitRequire [("php", "^8.1"), ("ext-redis", "*"), ("ext-json", "*"),
      ("laravel/framework", "^10.0")]).2.lookup "ext-json" = none := by
  refine ⟨?_, ?_, ?_, ?_⟩
  · exact (C9_theorem _ (by decide)).1 "^8.1" (by decide)
  · exact (C9_theorem _ (by decide)).2.2.2.1 "ext-redis" "*" (by decide) (by decide) (by decide)
  · exact ((C9_theorem _ (by decide)).2.2.2.2 "ext-json" (by decide) (by decide)).1
  · exact ((C9_theorem _ (by decide)).2.2.2.2 "ext-json" (by decide) (by decide)).2

/-! Lemmas about the rule loop of `detectStack`. -/

theorem stepRule_skip_name {deps devDeps all : List (String × String)}
    {si : Option StructureInfo} {st : DSState} {r : Rule}
    (h : (st.recognized.lookup r.name).isSome = true) :
    stepRule deps devDeps all si st r = st := by
  unfold stepRule
  rw [if_pos h]

theorem stepRule_skip_matched {deps devDeps all : List (String × String)}
    {si : Option StructureInfo} {st : DSState} {r : Rule}
    (h : ∀ p ∈ r.packages, (all.lookup p).isSome = true → p ∈ st.matched) :
    stepRule deps devDeps all si st r = st := by
  unfold stepRule
  dsimp only
  split
  · rfl
  · split
    · rfl
    · rw [if_pos ?_]
      apply List.all_eq_true.mpr
      intro p hp
      have hp2 := List.mem_filter.mp hp
      have hp3 : p ∈ st.matched := h p hp2.1 (by simpa using hp2.2)
      simpa [List.contains, List.elem_iff] using hp3

theorem stepRule_fires {deps devDeps all : List (String × String)}
    {si : Option StructureInfo} {st : DSState} {r : Rule}
    (h1 : st.recognized.lookup r.name = none)
    (h2 : ∃ p ∈ r.packages, (all.lookup p).isSome = true ∧ p ∉ st.matched)
    (h3 : condHolds r.condition all si = true) :
    stepRule deps devDeps all si st r =
      { recognized := st.recognized ++ [(r.name, mkTech r deps devDeps)],
        matched := st.matched ++ r.packages.filter (fun p => (all.lookup p).isSome) } := by
  obtain ⟨p, hp, hps, hpm⟩ := h2
  have hpf : p ∈ r.packages.filter (fun q => (all.lookup q).isSome) :=
    List.mem_filter.mpr ⟨hp, by simpa using hps⟩
  unfold stepRule
  dsimp only
  rw [if_neg (by simp [h1])]
  rw [if_neg ?hne]
  case hne =>
    intro hemp
    rw [List.isEmpty_iff.mp hemp] at hpf
    simp at hpf
  rw [if_neg ?hnall]
  case hnall =>
    intro hall
    have hcp := List.all_eq_true.mp hall p hpf
    have : p ∈ st.matched := by simpa [List.contains, List.elem_iff] using hcp
    exact hpm this
  rw [if_neg (by simp [h3])]

theorem stepRule_recognized_cases {deps devDeps all : List (String × String)}
    {si : Option StructureInfo} (st : DSState) (r : Rule) (k : String) :
    ((stepRule deps devDeps all si st r).recognized.lookup k = st.recognized.lookup k) ∨
    (k = r.name ∧
      (stepRule deps devDeps all si st r).recognized.lookup k =
        some (mkTech r deps devDeps)) := by
  unfold stepRule
  dsimp only
  split
  · exact Or.inl rfl
  · split
    · exact Or.inl rfl
    · split
      · exact Or.inl rfl
      · split
        · exact Or.inl rfl
        · by_cases hk : k = r.name
          · refine Or.inr ⟨hk, ?_⟩
            rename_i hnotrec _ _ _
            have hnone : st.recognized.lookup r.name = none := by
              cases h : st.recognized.lookup r.name with
              | none => rfl
              | some t => rw [h] at hnotrec; simp at hnotrec
            rw [List.lookup_append, hk, hnone]
            rw [lookup_cons_ite, if_pos rfl]
            rfl
          · refine Or.inl ?_
            rw [List.lookup_append]
            cases h : st.recognized.lookup k with
            | some t => rfl
            | none =>
              rw [lookup_cons_ite, if_neg hk]
              rfl

theorem stepRule_recognized_mono {deps devDeps all : List (String × String)}
    {si : Option StructureInfo} {st : DSState} {r : Rule} {k : String} {t : RecognizedTech}
    (h : st.recognized.lookup k = some t) :
    (stepRule deps devDeps all si st r).recognized.lookup k = some t := by
  unfold stepRule
  dsimp only
  split
  · exact h
  · split
    · exact h
    · split
      · exact h
      · split
        · exact h
        · rw [List.lookup_append, h]
          rfl

theorem stepRule_matched_cases {deps devDeps all : List (String × String)}
    {si : Option StructureInfo} (st : DSState) (r : Rule) (p : String)
    (h : p ∈ (stepRule deps devDeps all si st r).matched) :
    p ∈ st.matched ∨ (p ∈ r.packages ∧ (all.lookup p).isSome = true) := by
  revert h
  unfold stepRule
  dsimp only
  split
  · exact Or.inl
  · split
    · exact Or.inl
    · split
      · exact Or.inl
      · split
        · exact Or.inl
        · intro h
          rcases List.mem_append.mp h with h2 | h2
          · exact Or.inl h2
          · have h3 := List.mem_filter.mp h2
            exact Or.inr ⟨h3.1, by simpa using h3.2⟩

theorem stepRule_matched_mono {deps devDeps all : List (String × String)}
    {si : Option StructureInfo} {st : DSState} {r : Rule} {p : String}
    (h : p ∈ st.matched) :
    p ∈ (stepRule deps devDeps all si st r).matched := by
  unfold stepRule
  dsimp only
  split
  · exact h
  · split
    · exact h
    · split
      · exact h
      · split
        · exact h
        · exact List.mem_append_left _ h

theorem foldl_recognized_mono {deps devDeps all : List (String × String)}
    {si : Option StructureInfo} :
    ∀ (rules : List Rule) (st : DSState) (k : String) (t : RecognizedTech),
      st.recognized.lookup k = some t →
      ((rules.foldl (stepRule deps devDeps all si) st).recognized.lookup k = some t) := by
  intro rules
  induction rules with
  | nil => intro st k t h; exact h
  | cons r rs ih =>
    intro st k t h
    rw [List.foldl_cons]
    exact ih _ k t (stepRule_recognized_mono h)

theorem foldl_recognized_cases {deps devDeps all : List (String × String)}
    {si : Option StructureInfo} :
    ∀ (rules : List Rule) (st : DSState) (k : String) (t : RecognizedTech),
      ((rules.foldl (stepRule deps devDeps all si) st).recognized.lookup k = some t) →
      st.recognized.lookup k = some t ∨
        ∃ r ∈ rules, r.name = k ∧ t = mkTech r deps devDeps := by
  intro rules
  induction rules with
  | nil => intro st k t h; exact Or.inl h
  | cons r rs ih =>
    intro st k t h
    rw [List.foldl_cons] at h
    rcases ih _ k t h with h2 | ⟨r2, hr2, hn2, ht2⟩
    · rcases stepRule_recognized_cases st r k with h3 | ⟨h3, h4⟩
      · exact Or.inl (h3 ▸ h2)
      · rw [h2] at h4
        exact Or.inr ⟨r, List.mem_cons_self r rs, h3.symm, Option.some.inj h4⟩
    · exact Or.inr ⟨r2, List.mem_cons_of_mem r hr2, hn2, ht2⟩

theorem foldl_matched_mono {deps devDeps all : List (String × String)}
    {si : Option StructureInfo} :
    ∀ (rules : List Rule) (st : DSState) (p : String),
      p ∈ st.matched → p ∈ (rules.foldl (stepRule deps devDeps all si) st).matched := by
  intro rules
  induction rules with
  | nil => intro st p h; exact h
  | cons r rs ih =>
    intro st p h
    rw [List.foldl_cons]
    exact ih _ p (stepRule_matched_mono h)

theorem foldl_matched_cases {deps devDeps all : List (String × String)}
    {si : Option StructureInfo} :
    ∀ (rules : List Rule) (st : DSState) (p : String),
      p ∈ (rules.foldl (stepRule deps devDeps all si) st).matched →
      p ∈ st.matched ∨ ∃ r ∈ rules, p ∈ r.packages ∧ (all.lookup p).isSome = true := by
  intro rules
  induction rules with
  | nil => intro st p h; exact Or.inl h
  | cons r rs ih =>
    intro st p h
    rw [List.foldl_cons] at h
    rcases ih _ p h with h2 | ⟨r2, hr2, hp2, hs2⟩
    · rcases stepRule_matched_cases st r p h2 with h3 | h3
      · exact Or.inl h3
      · exact Or.inr ⟨r, List.mem_cons_self r rs, h3⟩
    · exact Or.inr ⟨r2, List.mem_cons_of_mem r hr2, hp2, hs2⟩

/-- C6: counterexample. The claim says `detectFramework` "returns null only
when no listed framework key is present", the precedence list including
"vite"; but a dependency map containing "vite" alone (without "react")
yields null even though the listed key "vite" is present. -/
theorem C6_counterexample :
    detectFramework [("vite", "1.0.0")] [] ⟨false, false, [], []⟩ = none ∧
    "vite" ∈ frameworkTriggerKeys := by
  exact ⟨by decide, by decide⟩

/-- If an if-then-else with a `some` in the then-branch evaluates to `none`,
the condition fails and the else-branch evaluates to `none`. -/
theorem ite_some_none {α : Type} {c : Prop} [Decidable c] {a : α} {rest : Option α}
    (h : (if c then some a else rest) = none) : ¬c ∧ rest = none := by
  by_cases hc : c
  · rw [if_pos hc] at h
    exact absurd h (by simp)
  · rw [if_neg hc] at h
    exact ⟨hc, h⟩

/-- C6 (amended): `detectFramework` is a fixed precedence chain: whenever
"next" is present the result is the framework named "next" (never "react"),
and the result is null exactly when none of the self-sufficient trigger
keys (all listed keys except "vite", which fires only together with
"react") is present. -/
theorem C6_amended (deps devDeps : List (String × String)) (si : StructureInfo) :
    (hasDep "next" deps devDeps = true →
      ∃ fw, detectFramework deps devDeps si = some fw ∧ fw.name = "next") ∧
    (detectFramework deps devDeps si = none ↔
      ∀ k ∈ singleTriggerKeys, hasDep k deps devDeps = false) := by
  constructor
  · intro h
    unfold detectFramework
    rw [if_pos h]
    exact ⟨_, rfl, rfl⟩
  · constructor
    · intro hnone
      unfold detectFramework at hnone
      obtain ⟨g1, hnone⟩ := ite_some_none hnone
      obtain ⟨g2, hnone⟩ := ite_some_none hnone
      obtain ⟨g3, hnone⟩ := ite_some_none hnone
      obtain ⟨g4, hnone⟩ := ite_some_none hnone
      obtain ⟨g5, hnone⟩ := ite_some_none hnone
      obtain ⟨g6, hnone⟩ := ite_some_none hnone
      obtain ⟨g7, hnone⟩ := ite_some_none hnone
      obtain ⟨g8, hnone⟩ := ite_some_none hnone
      obtain ⟨g9, hnone⟩ := ite_some_none hnone
      obtain ⟨g10, hnone⟩ := ite_some_none hnone
      obtain ⟨g11, hnone⟩ := ite_some_none hnone
      intro k hk
      fin_cases hk
      · simpa using g1
      · simpa using g2
      · by_contra hc
        have hc2 : hasDep "@remix-run/react" deps devDeps = true := by
          revert hc
          cases hasDep "@remix-run/react" deps devDeps <;> simp
        exact g3 (by
          unfold hasAnyDep
          exact List.any_eq_true.mpr ⟨"@remix-run/react", by simp, hc2⟩)
      · by_contra hc
        have hc2 : hasDep "@remix-run/node" deps devDeps = true := by
          revert hc
          cases hasDep "@remix-run/node" deps devDeps <;> simp
        exact g3 (by
          unfold hasAnyDep
          exact List.any_eq_true.mpr ⟨"@remix-run/node", by simp, hc2⟩)
      · simpa using g4
      · simpa using g5
      · simpa using g6
      · simpa using g8
      · simpa using g9
      · simpa using g10
      · simpa using g11
    · intro hall
      unfold detectFramework
      rw [if_neg (by simp [hall "next" (by decide)])]
      rw [if_neg (by simp [hall "nuxt" (by decide)])]
      rw [if_neg (by
        simp [hasAnyDep, hall "@remix-run/react" (by decide),
          hall "@remix-run/node" (by decide)])]
      rw [if_neg (by simp [hall "astro" (by decide)])]
      rw [if_neg (by simp [hall "@sveltejs/kit" (by decide)])]
      rw [if_neg (by simp [hall "@solidjs/start" (by decide)])]
      rw [if_neg (by simp [hall "react" (by decide)])]
      rw [if_neg (by simp [hall "express" (by decide)])]
      rw [if_neg (by simp [hall "fastify" (by decide)])]
      rw [if_neg (by simp [hall "hono" (by decide)])]
      rw [if_neg (by simp [hall "react" (by decide)])]

/-- C6 witness: with both "next" and "react" present the detector reports
"next"; with only unlisted dependencies it reports null. -/
theorem C6_witness :
    (∃ fw, detectFramework [("next", "14.0.0"), ("react", "18.2.0")] []
        ⟨false, false, [], []⟩ = some fw ∧ fw.name = "next") ∧
    detectFramework [("lodash", "4.17.21")] [] ⟨false, false, [], []⟩ = none := by
  constructor
  · exact (C6_amended [("next", "14.0.0"), ("react", "18.2.0")] []
      ⟨false, false, [], []⟩).1 (by decide)
  · exact (C6_amended [("lodash", "4.17.21")] [] ⟨false, false, [], []⟩).2.mpr (by decide)

/-- `List.contains` returning `false` is non-membership. -/
theorem contains_false_iff {l : List String} {a : String} :
    l.contains a = false ↔ a ∉ l := by
  constructor
  · intro h hin
    have h2 : l.contains a = true := by simpa [List.contains, List.elem_iff] using hin
    rw [h2] at h
    exact absurd h (by simp)
  · intro h
    cases hc : l.contains a
    · rfl
    · exact absurd (by simpa [List.contains, List.elem_iff] using hc : a ∈ l) h

set_option maxRecDepth 40000 in
/-- C1: counterexample. The claim says each raw dependency key lands in
exactly one bucket, but the key "vite" of the map `{vite: "1.2.3"}` is both
claimed by a matching rule's trigger packages (it lands in
`matchedPackages`) and a member of the hard-coded framework-package list:
two of the claimed buckets overlap. -/
theorem C1_counterexample :
    "vite" ∈ (mergeAll [("vite", "1.2.3")] []).map Prod.fst ∧
    "vite" ∈ (detectStackState [("vite", "1.2.3")] [] none).matched ∧
    "vite" ∈ FRAMEWORK_PACKAGES ∧
    "vite" ∉ (detectStack [("vite", "1.2.3")] [] none).unrecognized := by
  exact ⟨by decide, by decide, by decide, by decide⟩

set_option maxRecDepth 40000 in
/-- C1 (amended): no key is silently dropped — a raw dependency key appears
in `unrecognized` exactly when it is claimed by no rule, is not noise
(neither exact nor by prefix) and is not a framework package; moreover
every key in `matchedPackages` is a present dependency that is neither
exact noise nor prefix noise (so the claimed-by-a-rule bucket can overlap
only the framework-package bucket, as the counterexample shows it does). -/
theorem C1_amended (deps devDeps : List (String × String)) (si : Option StructureInfo) :
    (∀ k, k ∈ (detectStack deps devDeps si).unrecognized ↔
      (k ∈ (mergeAll deps devDeps).map Prod.fst ∧
        k ∉ (detectStackState deps devDeps si).matched ∧
        k ∉ NOISE_EXACT ∧ hasNoisePre k = false ∧ k ∉ FRAMEWORK_PACKAGES)) ∧
    (∀ p ∈ (detectStackState deps devDeps si).matched,
      ((mergeAll deps devDeps).lookup p).isSome = true ∧
        p ∉ NOISE_EXACT ∧ hasNoisePre p = false) := by
  constructor
  · intro k
    simp only [detectStack]
    rw [List.mem_filter]
    simp only [Bool.and_eq_true, Bool.not_eq_true', contains_false_iff]
    constructor
    · rintro ⟨h1, ⟨⟨h2, h3⟩, h4⟩, h5⟩
      exact ⟨h1, h2, h3, h4, h5⟩
    · rintro ⟨h1, h2, h3, h4, h5⟩
      exact ⟨h1, ⟨⟨h2, h3⟩, h4⟩, h5⟩
  · intro p hp
    unfold detectStackState at hp
    rcases foldl_matched_cases RULES ⟨[], []⟩ p hp with h | ⟨r, hr, hpr, hps⟩
    · exact absurd h (by simp)
    · refine ⟨hps, ?_, ?_⟩
      · have hstat : ∀ r ∈ RULES, ∀ q ∈ r.packages, q ∉ NOISE_EXACT := by decide
        exact hstat r hr p hpr
      · have hstat2 : ∀ r ∈ RULES, ∀ q ∈ r.packages, hasNoisePre q = false := by decide
        exact hstat2 r hr p hpr

set_option maxRecDepth 40000 in
/-- C1 witness: at a concrete map, "lodash" satisfies all four conditions
of the unrecognized bucket, and the matched package "prisma" is present
and is not noise. -/
theorem C1_witness :
    ("lodash" ∈ (mergeAll [("lodash", "4.0.0"), ("prisma", "5.0.0")] []).map Prod.fst ∧
      "lodash" ∉ (detectStackState [("lodash", "4.0.0"), ("prisma", "5.0.0")] [] none).matched ∧
      "lodash" ∉ NOISE_EXACT ∧ hasNoisePre "lodash" = false ∧
      "lodash" ∉ FRAMEWORK_PACKAGES) ∧
    (((mergeAll [("lodash", "4.0.0"), ("prisma", "5.0.0")] []).lookup "prisma").isSome = true ∧
      "prisma" ∉ NOISE_EXACT ∧ hasNoisePre "prisma" = false) := by
  constructor
  · exact ((C1_amended [("lodash", "4.0.0"), ("prisma", "5.0.0")] [] none).1 "lodash").mp
      (by decide)
  · exact (C1_amended [("lodash", "4.0.0"), ("prisma", "5.0.0")] [] none).2 "prisma" (by decide)

set_option maxRecDepth 40000 in
/-- C10: counterexample. The claim says the recognized shadcn entry never
carries a version because "__none__" "is never a key of the map"; but
nothing stops a dependency map from containing the literal key "__none__",
in which case the shadcn entry does carry that key's version. -/
theorem C10_counterexample :
    (detectStackState [("@radix-ui/react-slot", "1.0.0"), ("tailwindcss", "3.3.0"),
        ("class-variance-authority", "0.7.0"), ("__none__", "9.9.9")] [] none).recognized.lookup
      "shadcn" = some ⟨"shadcn", some "9.9.9", "ui-components"⟩ := by
  decide

set_option maxRecDepth 40000 in
/-- C10 (amended): whenever neither `deps` nor `devDeps` contains the
literal key "__none__" (true of every real dependency map), any
`RecognizedTech` recorded under "shadcn" by the rule loop has version
null: the only rule named "shadcn" has `versionFrom = "__none__"`, whose
lookup then misses. -/
theorem C10_amended (deps devDeps : List (String × String)) (si : Option StructureInfo)
    (h1 : deps.lookup "__none__" = none) (h2 : devDeps.lookup "__none__" = none) :
    ∀ t, (detectStackState deps devDeps si).recognized.lookup "shadcn" = some t →
      t.version = none := by
  intro t ht
  unfold detectStackState at ht
  rcases foldl_recognized_cases RULES ⟨[], []⟩ "shadcn" t ht with h | ⟨r, hr, hname, hteq⟩
  · exact absurd h (by simp)
  · have hvf : r.versionFrom = some "__none__" := by
      have hstat : ∀ r ∈ RULES, r.name = "shadcn" → r.versionFrom = some "__none__" := by
        decide
      exact hstat r hr hname
    rw [hteq]
    simp only [mkTech]
    rw [hvf]
    simp [jsVer, lookup2, h1, h2]

set_option maxRecDepth 40000 in
/-- C10 witness: at a concrete map without a "__none__" key, the recorded
shadcn technology has version null. -/
theorem C10_witness :
    (⟨"shadcn", none, "ui-components"⟩ : RecognizedTech).version = none := by
  refine C10_amended [("@radix-ui/react-slot", "1.0.0"), ("tailwindcss", "3.3.0"),
      ("class-variance-authority", "0.7.0")] [] none (by decide) (by decide)
    ⟨"shadcn", none, "ui-components"⟩ ?_
  decide

set_option maxRecDepth 40000 in
/-- C3: when at least one of the shadcn rule's @radix-ui trigger packages is
present together with the corroborating condition (tailwindcss,
class-variance-authority, and a components directory), the rule loop
records an entry under "shadcn", records no entry under "radix", and marks
every present @radix-ui trigger package as claimed. -/
theorem C3_theorem (deps devDeps : List (String × String)) (s : StructureInfo)
    (hrad : ∃ p ∈ shadcnRule.packages, ((mergeAll deps devDeps).lookup p).isSome = true)
    (htail : ((mergeAll deps devDeps).lookup "tailwindcss").isSome = true)
    (hcva : ((mergeAll deps devDeps).lookup "class-variance-authority").isSome = true)
    (hcomp : (s.topLevelDirs.contains "components" || s.srcDirs.contains "components") = true) :
    ((detectStackState deps devDeps (some s)).recognized.lookup "shadcn").isSome = true ∧
    (detectStackState deps devDeps (some s)).recognized.lookup "radix" = none ∧
    (∀ p ∈ shadcnRule.packages, ((mergeAll deps devDeps).lookup p).isSome = true →
      p ∈ (detectStackState deps devDeps (some s)).matched) := by
  have hshadcn_none : (List.foldl (stepRule deps devDeps (mergeAll deps devDeps) (some s)) ⟨[], []⟩ RULES_BEFORE_SHADCN).recognized.lookup shadcnRule.name = none := by
    cases hx : (List.foldl (stepRule deps devDeps (mergeAll deps devDeps) (some s)) ⟨[], []⟩ RULES_BEFORE_SHADCN).recognized.lookup shadcnRule.name with
    | none => rfl
    | some t =>
      rcases foldl_recognized_cases RULES_BEFORE_SHADCN ⟨[], []⟩ shadcnRule.name t hx with
        h | ⟨r, hr, hn, _⟩
      · exact absurd h (by simp)
      · have hstat : ∀ r ∈ RULES_BEFORE_SHADCN, r.name ≠ shadcnRule.name := by decide
        exact absurd hn (hstat r hr)
  have hradix_none : (List.foldl (stepRule deps devDeps (mergeAll deps devDeps) (some s)) ⟨[], []⟩ RULES_BEFORE_SHADCN).recognized.lookup "radix" = none := by
    cases hx : (List.foldl (stepRule deps devDeps (mergeAll deps devDeps) (some s)) ⟨[], []⟩ RULES_BEFORE_SHADCN).recognized.lookup "radix" with
    | none => rfl
    | some t =>
      rcases foldl_recognized_cases RULES_BEFORE_SHADCN ⟨[], []⟩ "radix" t hx with
        h | ⟨r, hr, hn, _⟩
      · exact absurd h (by simp)
      · have hstat : ∀ r ∈ RULES_BEFORE_SHADCN, r.name ≠ "radix" := by decide
        exact absurd hn (hstat r hr)
  have hnomatch : ∀ p ∈ shadcnRule.packages, p ∉ (List.foldl (stepRule deps devDeps (mergeAll deps devDeps) (some s)) ⟨[], []⟩ RULES_BEFORE_SHADCN).matched := by
    intro p hp hmem
    rcases foldl_matched_cases RULES_BEFORE_SHADCN ⟨[], []⟩ p hmem with h | ⟨r, hr, hpr, _⟩
    · exact absurd h (by simp)
    · have hstat : ∀ r ∈ RULES_BEFORE_SHADCN, ∀ q ∈ r.packages, q ∉ shadcnRule.packages := by
        decide
      exact hstat r hr p hpr hp
  have hcond : condHolds shadcnRule.condition (mergeAll deps devDeps) (some s) = true := by
    show shadcnCond (mergeAll deps devDeps) (some s) = true
    unfold shadcnCond
    rw [htail, hcva]
    have hcomp2 : "components" ∈ s.topLevelDirs ∨ "components" ∈ s.srcDirs := by
      simpa using hcomp
    simp [hcomp2]
  obtain ⟨p0, hp0, hps0⟩ := hrad
  have hfire : stepRule deps devDeps (mergeAll deps devDeps) (some s) (List.foldl (stepRule deps devDeps (mergeAll deps devDeps) (some s)) ⟨[], []⟩ RULES_BEFORE_SHADCN) shadcnRule =
      (⟨(List.foldl (stepRule deps devDeps (mergeAll deps devDeps) (some s)) ⟨[], []⟩ RULES_BEFORE_SHADCN).recognized ++ [(shadcnRule.name, mkTech shadcnRule deps devDeps)], (List.foldl (stepRule deps devDeps (mergeAll deps devDeps) (some s)) ⟨[], []⟩ RULES_BEFORE_SHADCN).matched ++ shadcnRule.packages.filter (fun p => ((mergeAll deps devDeps).lookup p).isSome)⟩ : DSState) :=
    stepRule_fires hshadcn_none ⟨p0, hp0, hps0, hnomatch p0 hp0⟩ hcond
  have hskipmem : ∀ p ∈ radixRule.packages,
      ((mergeAll deps devDeps).lookup p).isSome = true → p ∈ (⟨(List.foldl (stepRule deps devDeps (mergeAll deps devDeps) (some s)) ⟨[], []⟩ RULES_BEFORE_SHADCN).recognized ++ [(shadcnRule.name, mkTech shadcnRule deps devDeps)], (List.foldl (stepRule deps devDeps (mergeAll deps devDeps) (some s)) ⟨[], []⟩ RULES_BEFORE_SHADCN).matched ++ shadcnRule.packages.filter (fun p => ((mergeAll deps devDeps).lookup p).isSome)⟩ : DSState).matched := by
    intro p hp hps
    have hp2 : p ∈ shadcnRule.packages := by
      have hsub : ∀ q ∈ radixRule.packages, q ∈ shadcnRule.packages := by decide
      exact hsub p hp
    exact List.mem_append_right _ (List.mem_filter.mpr ⟨hp2, by simpa using hps⟩)
  have hskip : stepRule deps devDeps (mergeAll deps devDeps) (some s) (⟨(List.foldl (stepRule deps devDeps (mergeAll deps devDeps) (some s)) ⟨[], []⟩ RULES_BEFORE_SHADCN).recognized ++ [(shadcnRule.name, mkTech shadcnRule deps devDeps)], (List.foldl (stepRule deps devDeps (mergeAll deps devDeps) (some s)) ⟨[], []⟩ RULES_BEFORE_SHADCN).matched ++ shadcnRule.packages.filter (fun p => ((mergeAll deps devDeps).lookup p).isSome)⟩ : DSState) radixRule =
      (⟨(List.foldl (stepRule deps devDeps (mergeAll deps devDeps) (some s)) ⟨[], []⟩ RULES_BEFORE_SHADCN).recognized ++ [(shadcnRule.name, mkTech shadcnRule deps devDeps)], (List.foldl (stepRule deps devDeps (mergeAll deps devDeps) (some s)) ⟨[], []⟩ RULES_BEFORE_SHADCN).matched ++ shadcnRule.packages.filter (fun p => ((mergeAll deps devDeps).lookup p).isSome)⟩ : DSState) :=
    stepRule_skip_matched hskipmem
  unfold detectStackState
  unfold RULES
  rw [List.foldl_append, List.foldl_cons, List.foldl_cons, hfire, hskip]
  have hlook : (⟨(List.foldl (stepRule deps devDeps (mergeAll deps devDeps) (some s)) ⟨[], []⟩ RULES_BEFORE_SHADCN).recognized ++ [(shadcnRule.name, mkTech shadcnRule deps devDeps)], (List.foldl (stepRule deps devDeps (mergeAll deps devDeps) (some s)) ⟨[], []⟩ RULES_BEFORE_SHADCN).matched ++ shadcnRule.packages.filter (fun p => ((mergeAll deps devDeps).lookup p).isSome)⟩ : DSState).recognized.lookup "shadcn" = some (mkTech shadcnRule deps devDeps) := by
    have hn : (List.foldl (stepRule deps devDeps (mergeAll deps devDeps) (some s)) ⟨[], []⟩ RULES_BEFORE_SHADCN).recognized.lookup "shadcn" = none := hshadcn_none
    rw [List.lookup_append, hn, lookup_cons_ite,
      if_pos (show "shadcn" = shadcnRule.name from rfl)]
    rfl
  refine ⟨?_, ?_, ?_⟩
  · rw [foldl_recognized_mono RULES_AFTER_RADIX (⟨(List.foldl (stepRule deps devDeps (mergeAll deps devDeps) (some s)) ⟨[], []⟩ RULES_BEFORE_SHADCN).recognized ++ [(shadcnRule.name, mkTech shadcnRule deps devDeps)], (List.foldl (stepRule deps devDeps (mergeAll deps devDeps) (some s)) ⟨[], []⟩ RULES_BEFORE_SHADCN).matched ++ shadcnRule.packages.filter (fun p => ((mergeAll deps devDeps).lookup p).isSome)⟩ : DSState) "shadcn"
      (mkTech shadcnRule deps devDeps) hlook]
    rfl
  · have hst2radix : (⟨(List.foldl (stepRule deps devDeps (mergeAll deps devDeps) (some s)) ⟨[], []⟩ RULES_BEFORE_SHADCN).recognized ++ [(shadcnRule.name, mkTech shadcnRule deps devDeps)], (List.foldl (stepRule deps devDeps (mergeAll deps devDeps) (some s)) ⟨[], []⟩ RULES_BEFORE_SHADCN).matched ++ shadcnRule.packages.filter (fun p => ((mergeAll deps devDeps).lookup p).isSome)⟩ : DSState).recognized.lookup "radix" = none := by
      rw [List.lookup_append, hradix_none, lookup_cons_ite, if_neg (by decide)]
      rfl
    cases hx : (List.foldl (stepRule deps devDeps (mergeAll deps devDeps) (some s))
        (⟨(List.foldl (stepRule deps devDeps (mergeAll deps devDeps) (some s)) ⟨[], []⟩ RULES_BEFORE_SHADCN).recognized ++ [(shadcnRule.name, mkTech shadcnRule deps devDeps)], (List.foldl (stepRule deps devDeps (mergeAll deps devDeps) (some s)) ⟨[], []⟩ RULES_BEFORE_SHADCN).matched ++ shadcnRule.packages.filter (fun p => ((mergeAll deps devDeps).lookup p).isSome)⟩ : DSState) RULES_AFTER_RADIX).recognized.lookup "radix" with
    | none => rfl
    | some t =>
      rcases foldl_recognized_cases RULES_AFTER_RADIX (⟨(List.foldl (stepRule deps devDeps (mergeAll deps devDeps) (some s)) ⟨[], []⟩ RULES_BEFORE_SHADCN).recognized ++ [(shadcnRule.name, mkTech shadcnRule deps devDeps)], (List.foldl (stepRule deps devDeps (mergeAll deps devDeps) (some s)) ⟨[], []⟩ RULES_BEFORE_SHADCN).matched ++ shadcnRule.packages.filter (fun p => ((mergeAll deps devDeps).lookup p).isSome)⟩ : DSState) "radix" t hx with
        h | ⟨r, hr, hn, _⟩
      · rw [hst2radix] at h
        exact absurd h (by simp)
      · have hstat : ∀ r ∈ RULES_AFTER_RADIX, r.name ≠ "radix" := by decide
        exact absurd hn (hstat r hr)
  · intro p hp hps
    apply foldl_matched_mono
    exact List.mem_append_right _ (List.mem_filter.mpr ⟨hp, by simpa using hps⟩)

set_option maxRecDepth 40000 in
/-- C3 witness: concrete dependency map with one @radix-ui trigger package,
tailwindcss, class-variance-authority and a top-level components directory:
shadcn is recognized, radix is not, the trigger package is claimed. -/
theorem C3_witness :
    ((detectStackState [("@radix-ui/react-dialog", "1.0.5"), ("tailwindcss", "3.3.0"),
        ("class-variance-authority", "0.7.0")] []
        (some ⟨false, false, ["components"], []⟩)).recognized.lookup "shadcn").isSome = true ∧
    (detectStackState [("@radix-ui/react-dialog", "1.0.5"), ("tailwindcss", "3.3.0"),
        ("class-variance-authority", "0.7.0")] []
        (some ⟨false, false, ["components"], []⟩)).recognized.lookup "radix" = none ∧
    (∀ p ∈ shadcnRule.packages,
      ((mergeAll [("@radix-ui/react-dialog", "1.0.5"), ("tailwindcss", "3.3.0"),
          ("class-variance-authority", "0.7.0")] []).lookup p).isSome = true →
        p ∈ (detectStackState [("@radix-ui/react-dialog", "1.0.5"), ("tailwindcss", "3.3.0"),
          ("class-variance-authority", "0.7.0")] []
          (some ⟨false, false, ["components"], []⟩)).matched) :=
  C3_theorem [("@radix-ui/react-dialog", "1.0.5"), ("tailwindcss", "3.3.0"),
      ("class-variance-authority", "0.7.0")] [] ⟨false, false, ["components"], []⟩
    ⟨"@radix-ui/react-dialog", by decide, by decide⟩ (by decide) (by decide) (by decide)

end LeadCode
